import Mathlib

/-!
# Verification of the frankencommander panel/navigation core

Shallow embedding of the Rust sources of `gunabot/frankencommander`
(`src/pane.rs`, `src/vfs.rs`, `src/fs_ops.rs`, `src/model.rs`, `src/app.rs`)
together with proofs about the embedded definitions.

Conventions of the embedding:
* Rust `String` / `&str` values are embedded as `List Char` (named `Str`);
  Rust byte-wise string comparison coincides with `Char`-wise comparison on
  the ASCII strings occurring in the development.
* Rust `PathBuf` values are embedded as lists of path segments (`FPath`);
  the segments of the paths occurring in the program are ordinary names
  (non-empty, containing no separator, different from `.` and `..`), for
  which this representation is faithful.
* The external filesystem and the zip library are modelled by a `World`
  record of oracle functions; `io::Result` is embedded as `Except Str`.
* Functions taking `&mut self` and returning `io::Result<T>` are embedded
  as functions returning `Except Str T × State`, where the returned state
  reflects every field assignment performed before an early `?` return.
-/

deriving instance DecidableEq for Except

namespace Franken

/-- Rust `String` / `&str`, embedded as a list of characters. -/
abbrev Str := List Char

/-- Rust `PathBuf`, embedded as the list of its path segments. -/
abbrev FPath := List Str

/-- Rust `str::split(sep)` on a character separator: splits a string into
the (possibly empty) pieces between occurrences of `sep`.  The result is
never empty; splitting the empty string yields `[[]]`. -/
def splitCh (sep : Char) : Str → List Str
  | [] => [[]]
  | c :: rest =>
    if c = sep then [] :: splitCh sep rest
    else
      match splitCh sep rest with
      | [] => [[c]]
      | cur :: more => (c :: cur) :: more

/-- Join a list of segments with `/` between consecutive segments
(`intercalate "/"`); used to embed the textual form of a relative path. -/
def joinSlash : List Str → Str
  | [] => []
  | [s] => s
  | s :: rest => s ++ '/' :: joinSlash rest

/-- Rust `str::trim_end_matches('/')`: removes every trailing `/`. -/
def trimEndSlashes (s : Str) : Str :=
  (s.reverse.dropWhile (fun c => c = '/')).reverse

/-- The normalized components of a relative path string: the pieces between
separators, with empty pieces and `.` pieces discarded.  Embeds the
`std::path::Components` view of the relative, prefix-free path strings this
program applies it to (zip prefixes built from ordinary segment names). -/
def pathComponents (s : Str) : List Str :=
  (splitCh '/' s).filter (fun c => !(c = ([] : Str) ∨ c = ['.']))

/-- Rust `Path::new(s).parent()` (followed by `to_string_lossy`), for the
relative path strings this program applies it to: `none` when the path has
no components, otherwise the path with its final component removed. -/
def pathParent (s : Str) : Option Str :=
  match pathComponents s with
  | [] => none
  | cs => some (joinSlash cs.dropLast)

/-- Rust `Path::parent()` on a `PathBuf` embedded as a segment list (an
absolute path; the empty list is the filesystem root `/`, which has no
parent). -/
def fpathParent (p : FPath) : Option FPath :=
  match p with
  | [] => none
  | _ => some p.dropLast

/-- `vfs.rs::zip_parent_prefix`: trim trailing slashes, take the
`Path::parent`, return `""` for an empty parent and `parent ++ "/"`
otherwise; `none` when there is no parent (the archive root). -/
def zip_parent_prefix (pre : Str) : Option Str :=
  let trimmed := trimEndSlashes pre
  match pathParent trimmed with
  | none => none
  | some parent => if parent = [] then some [] else some (parent ++ ['/'])

/-- `vfs.rs::zip_child_prefix`: append the textual form of the entry path
and a trailing slash to the current prefix. -/
def zip_child_prefix (pre : Str) (entry_path : FPath) : Str :=
  pre ++ joinSlash entry_path ++ ['/']

/-- `model.rs::SortMode`. -/
inductive SortMode
  | NameAsc | NameDesc | ExtAsc | ExtDesc
  | TimeAsc | TimeDesc | SizeAsc | SizeDesc
  | Unsorted
  deriving DecidableEq, Repr

/-- `fs_ops.rs::toggle_name_sort`. -/
def toggle_name_sort : SortMode → SortMode
  | SortMode.NameAsc => SortMode.NameDesc
  | SortMode.NameDesc => SortMode.NameAsc
  | _ => SortMode.NameAsc

/-- `fs_ops.rs::toggle_ext_sort`. -/
def toggle_ext_sort : SortMode → SortMode
  | SortMode.ExtAsc => SortMode.ExtDesc
  | SortMode.ExtDesc => SortMode.ExtAsc
  | _ => SortMode.ExtAsc

/-- `fs_ops.rs::toggle_time_sort`. -/
def toggle_time_sort : SortMode → SortMode
  | SortMode.TimeAsc => SortMode.TimeDesc
  | SortMode.TimeDesc => SortMode.TimeAsc
  | _ => SortMode.TimeDesc

/-- `fs_ops.rs::toggle_size_sort`. -/
def toggle_size_sort : SortMode → SortMode
  | SortMode.SizeAsc => SortMode.SizeDesc
  | SortMode.SizeDesc => SortMode.SizeAsc
  | _ => SortMode.SizeDesc

/-- Character-wise lexicographic comparison; embeds Rust's byte-wise
`str` ordering (identical on ASCII, and UTF-8 byte order agrees with code
point order). -/
def cmpStr : Str → Str → Ordering
  | [], [] => Ordering.eq
  | [], _ :: _ => Ordering.lt
  | _ :: _, [] => Ordering.gt
  | a :: as, b :: bs => (compare a b).then (cmpStr as bs)

/-- Rust `str::to_lowercase`, restricted to the per-character lowering that
is exact on ASCII names. -/
def lowerStr (s : Str) : Str := s.map Char.toLower

/-- Rust `name.starts_with('.')`. -/
def hiddenName : Str → Bool
  | '.' :: _ => true
  | _ => false

/-- `model.rs::Entry` (timestamps embedded as `Option Nat`, seconds since
the Unix epoch). -/
structure Entry where
  name : Str
  path : FPath
  is_dir : Bool
  size : Nat
  modified : Option Nat
  is_system : Bool
  deriving DecidableEq, Repr

/-- `fs_ops.rs::cmp_name`. -/
def cmp_name (a b : Entry) : Ordering := cmpStr (lowerStr a.name) (lowerStr b.name)

/-- `fs_ops.rs::cmp_ext`: compare the lowercased last `.`-separated piece
of the names (`rsplit('.').next()`). -/
def cmp_ext (a b : Entry) : Ordering :=
  let ext_a := lowerStr (((splitCh '.' a.name).getLast?).getD [])
  let ext_b := lowerStr (((splitCh '.' b.name).getLast?).getD [])
  cmpStr ext_a ext_b

/-- `fs_ops.rs::cmp_time` (a missing timestamp counts as the epoch). -/
def cmp_time (a b : Entry) : Ordering := compare (a.modified.getD 0) (b.modified.getD 0)

/-- `fs_ops.rs::cmp_size`. -/
def cmp_size (a b : Entry) : Ordering := compare a.size b.size

/-- The composite comparator passed to `sort_by` in `fs_ops.rs::read_entries`. -/
def entryCmp (sort_mode : SortMode) (dirs_first : Bool) (a b : Entry) : Ordering :=
  if dirs_first ∧ a.is_dir ≠ b.is_dir then
    if a.is_dir then Ordering.lt else Ordering.gt
  else
    match sort_mode with
    | SortMode.NameAsc => cmp_name a b
    | SortMode.NameDesc => cmp_name b a
    | SortMode.ExtAsc => (cmp_ext a b).then (cmp_name a b)
    | SortMode.ExtDesc => (cmp_ext b a).then (cmp_name a b)
    | SortMode.TimeAsc => (cmp_time a b).then (cmp_name a b)
    | SortMode.TimeDesc => (cmp_time b a).then (cmp_name a b)
    | SortMode.SizeAsc => (cmp_size a b).then (cmp_name a b)
    | SortMode.SizeDesc => (cmp_size b a).then (cmp_name a b)
    | SortMode.Unsorted => Ordering.eq

/-- Stable insertion of `x` into a sorted list: `x` goes after every
element `y` with `le y x`, so equal elements keep their arrival order. -/
def insertLe (le : α → α → Bool) (x : α) : List α → List α
  | [] => [x]
  | y :: ys => if le y x then y :: insertLe le x ys else x :: y :: ys

/-- A stable sort with respect to the boolean relation `le`; embeds Rust's
(stable) `slice::sort_by cmp` via `le a b := cmp a b ≠ Greater`. -/
def sortByLe (le : α → α → Bool) (l : List α) : List α :=
  l.foldl (fun acc x => insertLe le x acc) []

/-- One item of a raw directory listing: `fs::read_dir` entry together
with its `metadata()` (external filesystem input to `read_entries`). -/
structure RawItem where
  name : Str
  is_dir : Bool
  size : Nat
  modified : Option Nat
  deriving DecidableEq, Repr

/-- `fs::metadata` result used by `read_panelized`. -/
structure Meta where
  is_dir : Bool
  size : Nat
  modified : Option Nat
  deriving DecidableEq, Repr

/-- One stored entry of a zip archive, as exposed by
`ZipArchive::by_index`: full stored name, directory flag, stored size. -/
structure ZipEntry where
  name : Str
  is_dir : Bool
  size : Nat
  deriving DecidableEq, Repr

/-- `model.rs::VfsState`.  The Rust field `prefix` is a Lean keyword and is
embedded as `pfx`. -/
structure VfsState where
  zip_path : FPath
  pfx : Str
  deriving DecidableEq, Repr

/-- The external world: filesystem and zip-library oracles.  Listing
oracles return the raw data the program reads; the mutation oracles
(`copyRes`, …) give the `io::Result` outcome of the corresponding
`fs_ops.rs` operation, whose internal filesystem writes are outside the
embedded state. -/
structure World where
  readDir : FPath → Except Str (List RawItem)
  zipEntries : FPath → Except Str (List ZipEntry)
  metaOf : FPath → Option Meta
  pathExists : FPath → Bool
  pathIsDir : FPath → Bool
  copyRes : List FPath → FPath → Bool → Except Str Unit
  moveRes : List FPath → FPath → Bool → Except Str Unit
  removeRes : FPath → Except Str Unit
  mkdirRes : FPath → Except Str Unit
  chmodRes : FPath → Nat → Except Str Unit
  findRes : FPath → Str → Bool → List FPath
  syncRes : List FPath → FPath → FPath → Except Str Nat

/-- `fs_ops.rs::read_entries`: list a directory, skip hidden names unless
`show_hidden`, and stable-sort with the composite comparator. -/
def read_entries (w : World) (dir : FPath) (sort_mode : SortMode)
    (dirs_first : Bool) (show_hidden : Bool) : Except Str (List Entry) := do
  let items ← w.readDir dir
  let entries := items.filterMap (fun it =>
    if !show_hidden && hiddenName it.name then none
    else some { name := it.name, path := dir ++ [it.name], is_dir := it.is_dir,
                size := it.size, modified := it.modified,
                is_system := hiddenName it.name })
  return sortByLe (fun a b => entryCmp sort_mode dirs_first a b != Ordering.gt) entries

/-- `fs_ops.rs::read_panelized`: look up each path's metadata, skipping
paths whose metadata lookup fails; never returns an error. -/
def read_panelized (w : World) (paths : List FPath) : Except Str (List Entry) :=
  Except.ok (paths.filterMap (fun path =>
    (w.metaOf path).map (fun m =>
      { name := (path.getLast?).getD [], path := path, is_dir := m.is_dir,
        size := m.size, modified := m.modified,
        is_system := hiddenName ((path.getLast?).getD []) })))

/-- The loop body of `vfs.rs::read_zip_entries`, threading the `seen_dirs`
deduplication set (embedded as a list). -/
def zipListEntries (pre : Str) (show_hidden : Bool) :
    List ZipEntry → List Str → List Entry
  | [], _ => []
  | ze :: rest, seen =>
    if !(pre.isPrefixOf ze.name) then zipListEntries pre show_hidden rest seen
    else
      let restName := ze.name.drop pre.length
      if restName = [] then zipListEntries pre show_hidden rest seen
      else
        let parts := splitCh '/' restName
        let isd := ze.is_dir || (restName.getLast? == some '/')
        if parts.length > 1 then
          let dirName := parts.headD []
          if !show_hidden && hiddenName dirName then
            zipListEntries pre show_hidden rest seen
          else if dirName ∈ seen then
            zipListEntries pre show_hidden rest seen
          else
            { name := dirName, path := [dirName], is_dir := true, size := 0,
              modified := none, is_system := hiddenName dirName } ::
              zipListEntries pre show_hidden rest (dirName :: seen)
        else
          let base := parts.headD []
          if base = [] then zipListEntries pre show_hidden rest seen
          else if !show_hidden && hiddenName base then
            zipListEntries pre show_hidden rest seen
          else
            { name := base, path := [base], is_dir := isd, size := ze.size,
              modified := none, is_system := hiddenName base } ::
              zipListEntries pre show_hidden rest seen

/-- The comparator of `vfs.rs::read_zip_entries`: directories first, then
case-insensitive name. -/
def zipCmp (a b : Entry) : Ordering :=
  match a.is_dir, b.is_dir with
  | true, false => Ordering.lt
  | false, true => Ordering.gt
  | _, _ => cmpStr (lowerStr a.name) (lowerStr b.name)

/-- `vfs.rs::read_zip_entries`: filter the archive's stored entries by the
current prefix, emit one deduplicated directory entry per first segment
and one file entry per leaf, then sort directories-first by name. -/
def read_zip_entries (w : World) (v : VfsState) (show_hidden : Bool) :
    Except Str (List Entry) := do
  let zs ← w.zipEntries v.zip_path
  let entries := zipListEntries v.pfx show_hidden zs []
  return sortByLe (fun a b => zipCmp a b != Ordering.gt) entries

/-- The `ftui` `TableState` used by `model.rs::Pane`: the cursor index and
the scroll offset (spec §9 models it as exactly these two fields). -/
structure TableState where
  selected : Option Nat
  offset : Nat
  deriving DecidableEq, Repr

/-- `app.rs::ensure_visible`. -/
def ensure_visible (st : TableState) (view_height : Nat) : TableState :=
  if view_height = 0 then st
  else
    match st.selected with
    | none => st
    | some sel =>
      if sel < st.offset then { st with offset := sel }
      else if sel ≥ st.offset + view_height then { st with offset := sel - (view_height - 1) }
      else st

/-- `model.rs::PanelMode` (presentation only). -/
inductive PanelMode
  | Brief | Full | Info | Tree | QuickView
  deriving DecidableEq, Repr

/-- `model.rs::RefreshMode`. -/
inductive RefreshMode
  | Reset | Keep
  deriving DecidableEq, Repr

/-- `model.rs::Pane` (the `HashSet<PathBuf>` of selected paths is embedded
as a `Finset`). -/
structure Pane where
  cwd : FPath
  entries : List Entry
  state : TableState
  selected : Finset FPath
  sort_mode : SortMode
  dirs_first : Bool
  vfs : Option VfsState
  panelized : Option (List FPath)
  mode : PanelMode
  deriving DecidableEq

/-- The backing-source dispatch at the top of `pane.rs::Pane::refresh`:
panelized list first, then archive, then the real directory. -/
def Pane.listSource (w : World) (p : Pane) (show_hidden : Bool) :
    Except Str (List Entry) :=
  match p.panelized with
  | some pz => read_panelized w pz
  | none =>
    match p.vfs with
    | some v => read_zip_entries w v show_hidden
    | none => read_entries w p.cwd p.sort_mode p.dirs_first show_hidden

/-- `pane.rs::Pane::refresh`.  On a listing error nothing has been
assigned yet, so the pane is returned unchanged together with the error;
on success the new entries replace the old ones, stale selections are
dropped, and the cursor is repositioned according to `mode`. -/
def Pane.refresh (w : World) (p : Pane) (mode : RefreshMode) (show_hidden : Bool) :
    Except Str Unit × Pane :=
  match Pane.listSource w p show_hidden with
  | Except.error e => (Except.error e, p)
  | Except.ok entries =>
    let sel := p.selected.filter (fun path => entries.any (fun e => e.path == path) = true)
    let p1 := { p with entries := entries, selected := sel }
    if entries.isEmpty then
      (Except.ok (), { p1 with state := { selected := none, offset := 0 } })
    else
      match mode with
      | RefreshMode.Reset =>
        (Except.ok (), { p1 with state := { selected := some 0, offset := 0 } })
      | RefreshMode.Keep =>
        let current := min (p.state.selected.getD 0) (entries.length - 1)
        (Except.ok (), { p1 with state := { p1.state with selected := some current } })

/-- `pane.rs::Pane::selected_entry`. -/
def Pane.selected_entry (p : Pane) : Option Entry :=
  match p.state.selected with
  | none => none
  | some idx => p.entries[idx]?

/-- `pane.rs::Pane::move_selection`: on empty entries clear the cursor;
otherwise clamp `current + delta` into `[0, len-1]` and keep it visible. -/
def Pane.move_selection (p : Pane) (delta : Int) (view_height : Nat) : Pane :=
  if p.entries.isEmpty then
    { p with state := { selected := none, offset := 0 } }
  else
    let current : Int := (p.state.selected.getD 0 : Nat)
    let next : Nat := (max 0 (min (current + delta) ((p.entries.length - 1 : Nat) : Int))).toNat
    let st := { p.state with selected := some next }
    { p with state := ensure_visible st view_height }

/-- The tail of `pane.rs::Pane::go_parent` after the archive branch: clear
a panelized listing, else move `cwd` to its parent when it has one. -/
def Pane.go_parent_rest (w : World) (p : Pane) (show_hidden : Bool) :
    Except Str Unit × Pane :=
  if p.panelized.isSome then
    Pane.refresh w { p with panelized := none } RefreshMode.Reset show_hidden
  else
    match fpathParent p.cwd with
    | some parent => Pane.refresh w { p with cwd := parent } RefreshMode.Reset show_hidden
    | none => (Except.ok (), p)

/-- `pane.rs::Pane::go_parent`.  In archive mode, ascend one prefix
segment when possible; at the archive root clear `vfs` and fall through to
the directory behaviour (this fall-through is the literal control flow of
the source: there is no early return after `self.vfs = None`). -/
def Pane.go_parent (w : World) (p : Pane) (show_hidden : Bool) :
    Except Str Unit × Pane :=
  match p.vfs with
  | some v =>
    match zip_parent_prefix v.pfx with
    | some parent =>
      Pane.refresh w { p with vfs := some { v with pfx := parent } } RefreshMode.Reset show_hidden
    | none => Pane.go_parent_rest w { p with vfs := none } show_hidden
  | none => Pane.go_parent_rest w p show_hidden

/-- The `self.refresh(RefreshMode::Reset, show_hidden)?; return Ok(true)`
pattern of `enter_selected`: propagate a refresh error (with whatever the
pane now holds), otherwise report that navigation happened. -/
def Pane.refreshThen (w : World) (q : Pane) (show_hidden : Bool) :
    Except Str Bool × Pane :=
  match Pane.refresh w q RefreshMode.Reset show_hidden with
  | (Except.error e, p2) => (Except.error e, p2)
  | (Except.ok _, p2) => (Except.ok true, p2)

/-- `pane.rs::Pane::enter_selected`. -/
def Pane.enter_selected (w : World) (p : Pane) (show_hidden : Bool) :
    Except Str Bool × Pane :=
  match p.selected_entry with
  | none => (Except.ok false, p)
  | some entry =>
    if entry.is_dir then
      match p.vfs with
      | some v =>
        Pane.refreshThen w
          { p with vfs := some { v with pfx := zip_child_prefix v.pfx entry.path } }
          show_hidden
      | none =>
        Pane.refreshThen w { p with cwd := entry.path, panelized := none } show_hidden
    else if ['.', 'z', 'i', 'p'].isSuffixOf (lowerStr entry.name) ∧ p.vfs = none then
      Pane.refreshThen w { p with vfs := some { zip_path := entry.path, pfx := [] } }
        show_hidden
    else (Except.ok false, p)

/-- `pane.rs::Pane::toggle_select`. -/
def Pane.toggle_select (p : Pane) : Pane :=
  match p.selected_entry with
  | none => p
  | some entry =>
    if entry.path ∈ p.selected then { p with selected := p.selected.erase entry.path }
    else { p with selected := insert entry.path p.selected }

/-- `pane.rs::Pane::select_all`. -/
def Pane.select_all (p : Pane) : Pane :=
  { p with selected := (p.entries.map (fun e => e.path)).toFinset }

/-- `pane.rs::Pane::clear_selection`. -/
def Pane.clear_selection (p : Pane) : Pane :=
  { p with selected := ∅ }

/-- `pane.rs::Pane::invert_selection`. -/
def Pane.invert_selection (p : Pane) : Pane :=
  { p with selected :=
      ((p.entries.filter (fun e => !(decide (e.path ∈ p.selected)))).map
        (fun e => e.path)).toFinset }

/-- Rust `src.file_name().unwrap_or_default()` for paths made of ordinary
segments: the last segment, or the empty string for the empty path. -/
def fileName (p : FPath) : Str := (p.getLast?).getD []

/-- Rust `dest.join(name)`: appending an empty name leaves the path value
unchanged (only a trailing separator in the textual form). -/
def pjoin (d : FPath) (n : Str) : FPath := if n = [] then d else d ++ [n]

/-- `fs_ops.rs::find_conflicts`. -/
def find_conflicts (w : World) (sources : List FPath) (dest : FPath) : Option Nat :=
  let dest_is_dir := w.pathIsDir dest || decide (sources.length > 1)
  let conflicts := sources.countP (fun src =>
    w.pathExists (if dest_is_dir then pjoin dest (fileName src) else dest))
  if conflicts > 0 then some conflicts else none

/-- `model.rs::ActivePane`. -/
inductive ActivePane
  | Left | Right
  deriving DecidableEq, Repr

/-- `model.rs::OverwriteKind`. -/
inductive OverwriteKind
  | Copy | Move
  deriving DecidableEq, Repr

/-- `model.rs::PendingPrompt`. -/
inductive PendingPrompt
  | CopyTo (sources : List FPath)
  | MoveTo (sources : List FPath)
  | Mkdir (base : FPath)
  | Find (base : FPath)
  | Chmod (target : FPath)
  deriving DecidableEq, Repr

/-- `model.rs::PendingConfirm`. -/
inductive PendingConfirm
  | Delete (sources : List FPath)
  | Overwrite (kind : OverwriteKind) (sources : List FPath) (dest : FPath)
  | Sync (ops : List FPath) (src_root : FPath) (dst_root : FPath)
  deriving DecidableEq, Repr

/-- `model.rs::CopyDialogFocus`. -/
inductive CopyDialogFocus
  | Input | IncludeSubdirs | CopyNewerOnly | UseFilters | CheckTargetSpace
  | BtnCopy | BtnTree | BtnFilters | BtnCancel
  deriving DecidableEq, Repr

/-- `model.rs::CopyDialogState`. -/
structure CopyDialogState where
  sources : List FPath
  source_name : Str
  dest : Str
  cursor : Nat
  include_subdirs : Bool
  copy_newer_only : Bool
  use_filters : Bool
  check_target_space : Bool
  focus : CopyDialogFocus
  deriving DecidableEq, Repr

/-- `model.rs::Modal`, restricted to the variants reached by the embedded
handlers (the purely presentational variants take no part in the verified
transitions). -/
inductive Modal
  | CopyDialog (st : CopyDialogState)
  | MoveDialog (st : CopyDialogState)
  | DeleteDialog (sources : List FPath) (source_name : Str) (use_filters : Bool) (focus : Nat)
  | Prompt (title : Str) (label : Str) (value : Str) (cursor : Nat) (action : PendingPrompt)
  | Confirm (title : Str) (message : Str) (action : PendingConfirm)
  | FindResults (query : Str) (items : List FPath) (selected : Nat) (scroll : Nat)
  deriving DecidableEq, Repr

/-- The key codes distinguished by the embedded handlers. -/
inductive KeyCode
  | Escape | Enter | Tab | BackTab | Left | Right | Backspace | Delete
  | Home | End | Up | Down | PageUp | PageDown
  | Char (c : Char)
  | F (n : Nat)
  deriving DecidableEq, Repr

/-- A performed filesystem mutation: the trace of `fs_ops` calls a
controller step issues, in call order. -/
inductive FsOp
  | copy (sources : List FPath) (dest : FPath) (overwrite : Bool)
  | move (sources : List FPath) (dest : FPath) (overwrite : Bool)
  | remove (path : FPath)
  | mkdir (path : FPath)
  | chmod (path : FPath) (mode : Nat)
  | sync (ops : List FPath) (src_root : FPath) (dst_root : FPath)
  deriving DecidableEq, Repr

/-- The controller state (`app.rs::App`), restricted to the fields the
embedded handlers read or write. -/
structure App where
  left : Pane
  right : Pane
  active : ActivePane
  show_hidden : Bool
  status : Str
  modal : Option Modal
  deriving DecidableEq

/-- `app.rs::App::active_pane`. -/
def App.active_pane (a : App) : Pane :=
  match a.active with
  | ActivePane.Left => a.left
  | ActivePane.Right => a.right

/-- Store back the active pane (`active_pane_mut`). -/
def App.set_active_pane (a : App) (p : Pane) : App :=
  match a.active with
  | ActivePane.Left => { a with left := p }
  | ActivePane.Right => { a with right := p }

/-- `app.rs::App::inactive_pane`. -/
def App.inactive_pane (a : App) : Pane :=
  match a.active with
  | ActivePane.Left => a.right
  | ActivePane.Right => a.left

/-- Store back the inactive pane (`inactive_pane_mut`). -/
def App.set_inactive_pane (a : App) (p : Pane) : App :=
  match a.active with
  | ActivePane.Left => { a with right := p }
  | ActivePane.Right => { a with left := p }

/-- `let _ = self.active_pane_mut().refresh(mode, show_hidden);` -/
def App.refresh_active (w : World) (a : App) (mode : RefreshMode) : App :=
  App.set_active_pane a (Pane.refresh w (App.active_pane a) mode a.show_hidden).2

/-- `let _ = self.inactive_pane_mut().refresh(mode, show_hidden);` -/
def App.refresh_inactive (w : World) (a : App) (mode : RefreshMode) : App :=
  App.set_inactive_pane a (Pane.refresh w (App.inactive_pane a) mode a.show_hidden).2

/-- `let _ = self.left.refresh(mode, show_hidden);` -/
def App.refresh_left (w : World) (a : App) (mode : RefreshMode) : App :=
  { a with left := (Pane.refresh w a.left mode a.show_hidden).2 }

/-- `let _ = self.right.refresh(mode, show_hidden);` -/
def App.refresh_right (w : World) (a : App) (mode : RefreshMode) : App :=
  { a with right := (Pane.refresh w a.right mode a.show_hidden).2 }

/-- `PathBuf::from` on a textual path, in the normalized segment view used
for `FPath`. -/
def pathOfString (s : Str) : FPath := pathComponents s

/-- Decimal rendering of a number, for `format!` messages. -/
def natStr (n : Nat) : Str := (toString n).data

/-- `format!("Overwrite {} item(s)?", conflicts)`. -/
def overwriteMsg (conflicts : Nat) : Str :=
  "Overwrite ".data ++ natStr conflicts ++ " item(s)?".data

/-- `u32::from_str_radix(s, 8)` for plain octal digit strings. -/
def parseOctal (s : Str) : Option Nat :=
  if s = [] then none
  else s.foldl (fun acc c =>
    acc.bind (fun n =>
      if '0' ≤ c ∧ c ≤ '7' then some (n * 8 + (c.toNat - '0'.toNat)) else none))
    (some 0)

/-- The per-path deletion loop of `execute_confirm`'s `Delete` arm: remove
each source in turn, stopping at (and reporting) the first failure. -/
def deleteLoop (w : World) : List FPath → List FsOp × Option Str
  | [] => ([], none)
  | path :: rest =>
    match w.removeRes path with
    | Except.error e => ([FsOp.remove path], some e)
    | Except.ok _ =>
      let (ops, err) := deleteLoop w rest
      (FsOp.remove path :: ops, err)

/-- `app.rs::App::execute_confirm`, instrumented with the trace of
filesystem mutations it issues. -/
def App.execute_confirm (w : World) (a : App) (action : PendingConfirm) :
    App × List FsOp :=
  match action with
  | PendingConfirm.Delete sources =>
    match deleteLoop w sources with
    | (ops, some e) => ({ a with status := "Delete failed: ".data ++ e }, ops)
    | (ops, none) =>
      (App.refresh_active w { a with status := "Deleted".data } RefreshMode.Keep, ops)
  | PendingConfirm.Overwrite kind sources dest =>
    let result :=
      match kind with
      | OverwriteKind.Copy => w.copyRes sources dest true
      | OverwriteKind.Move => w.moveRes sources dest true
    let ops :=
      match kind with
      | OverwriteKind.Copy => [FsOp.copy sources dest true]
      | OverwriteKind.Move => [FsOp.move sources dest true]
    match result with
    | Except.ok _ =>
      let a1 := App.refresh_active w { a with status := "Operation complete".data } RefreshMode.Keep
      (App.refresh_inactive w a1 RefreshMode.Keep, ops)
    | Except.error e => ({ a with status := "Overwrite failed: ".data ++ e }, ops)
  | PendingConfirm.Sync ops src_root dst_root =>
    match w.syncRes ops src_root dst_root with
    | Except.ok count =>
      let a1 := App.refresh_left w { a with status := "Synchronized ".data ++ natStr count } RefreshMode.Keep
      (App.refresh_right w a1 RefreshMode.Keep, [FsOp.sync ops src_root dst_root])
    | Except.error e =>
      ({ a with status := "Sync failed: ".data ++ e }, [FsOp.sync ops src_root dst_root])

/-- `app.rs::App::execute_prompt`, instrumented with the trace of
filesystem mutations it issues. -/
def App.execute_prompt (w : World) (a : App) (action : PendingPrompt) (input : Str) :
    App × List FsOp :=
  match action with
  | PendingPrompt.CopyTo sources =>
    let dest := pathOfString input
    match find_conflicts w sources dest with
    | some conflicts =>
      ({ a with modal := some (Modal.Confirm "Overwrite".data (overwriteMsg conflicts)
          (PendingConfirm.Overwrite OverwriteKind.Copy sources dest)) }, [])
    | none =>
      match w.copyRes sources dest false with
      | Except.ok _ =>
        let a1 := App.refresh_inactive w { a with status := "Copy complete".data } RefreshMode.Keep
        ({ a1 with modal := none }, [FsOp.copy sources dest false])
      | Except.error e =>
        ({ a with status := "Copy failed: ".data ++ e, modal := none },
         [FsOp.copy sources dest false])
  | PendingPrompt.MoveTo sources =>
    let dest := pathOfString input
    match find_conflicts w sources dest with
    | some conflicts =>
      ({ a with modal := some (Modal.Confirm "Overwrite".data (overwriteMsg conflicts)
          (PendingConfirm.Overwrite OverwriteKind.Move sources dest)) }, [])
    | none =>
      match w.moveRes sources dest false with
      | Except.ok _ =>
        let a1 := App.refresh_active w { a with status := "Move complete".data } RefreshMode.Keep
        let a2 := App.refresh_inactive w a1 RefreshMode.Keep
        ({ a2 with modal := none }, [FsOp.move sources dest false])
      | Except.error e =>
        ({ a with status := "Move failed: ".data ++ e, modal := none },
         [FsOp.move sources dest false])
  | PendingPrompt.Mkdir base =>
    let path := base ++ pathOfString input
    match w.mkdirRes path with
    | Except.error e => ({ a with status := "Mkdir failed: ".data ++ e }, [FsOp.mkdir path])
    | Except.ok _ =>
      let a1 := App.refresh_active w { a with status := "Created ".data ++ joinSlash path } RefreshMode.Keep
      ({ a1 with modal := none }, [FsOp.mkdir path])
  | PendingPrompt.Find base =>
    let results := w.findRes base input a.show_hidden
    if results.isEmpty then
      ({ a with status := "No matches".data, modal := none }, [])
    else
      ({ a with modal := some (Modal.FindResults input results 0 0) }, [])
  | PendingPrompt.Chmod target =>
    let trimmed := input.dropWhile (fun c => c = '0')
    let octal := (parseOctal trimmed).getD 0o644
    let md := octal % 512
    match w.chmodRes target md with
    | Except.error e =>
      ({ a with status := "Chmod failed: ".data ++ e, modal := none }, [FsOp.chmod target md])
    | Except.ok _ =>
      let a1 := App.refresh_active w { a with status := "Chmod ".data ++ joinSlash target } RefreshMode.Keep
      ({ a1 with modal := none }, [FsOp.chmod target md])

/-- The `Tab` focus rotation of the copy/move dialog. -/
def cmFocusNext : CopyDialogFocus → CopyDialogFocus
  | CopyDialogFocus.Input => CopyDialogFocus.IncludeSubdirs
  | CopyDialogFocus.IncludeSubdirs => CopyDialogFocus.CopyNewerOnly
  | CopyDialogFocus.CopyNewerOnly => CopyDialogFocus.UseFilters
  | CopyDialogFocus.UseFilters => CopyDialogFocus.CheckTargetSpace
  | CopyDialogFocus.CheckTargetSpace => CopyDialogFocus.BtnCopy
  | CopyDialogFocus.BtnCopy => CopyDialogFocus.BtnTree
  | CopyDialogFocus.BtnTree => CopyDialogFocus.BtnFilters
  | CopyDialogFocus.BtnFilters => CopyDialogFocus.BtnCancel
  | CopyDialogFocus.BtnCancel => CopyDialogFocus.Input

/-- The `BackTab` focus rotation of the copy/move dialog. -/
def cmFocusPrev : CopyDialogFocus → CopyDialogFocus
  | CopyDialogFocus.Input => CopyDialogFocus.BtnCancel
  | CopyDialogFocus.IncludeSubdirs => CopyDialogFocus.Input
  | CopyDialogFocus.CopyNewerOnly => CopyDialogFocus.IncludeSubdirs
  | CopyDialogFocus.UseFilters => CopyDialogFocus.CopyNewerOnly
  | CopyDialogFocus.CheckTargetSpace => CopyDialogFocus.UseFilters
  | CopyDialogFocus.BtnCopy => CopyDialogFocus.CheckTargetSpace
  | CopyDialogFocus.BtnTree => CopyDialogFocus.BtnCopy
  | CopyDialogFocus.BtnFilters => CopyDialogFocus.BtnTree
  | CopyDialogFocus.BtnCancel => CopyDialogFocus.BtnFilters

/-- The `Enter`-on-`Input`/`BtnCopy` commit of the copy/move dialog: close
the dialog, then either substitute an `Overwrite` confirm (when
`find_conflicts` reports conflicts) or run the operation directly with
`overwrite = false`. -/
def cmCommit (w : World) (a : App) (st : CopyDialogState) (is_copy : Bool) :
    App × List FsOp :=
  let sources := st.sources
  let dest := pathOfString st.dest
  let a := { a with modal := none }
  if is_copy then
    match find_conflicts w sources dest with
    | some conflicts =>
      ({ a with modal := some (Modal.Confirm "Overwrite".data (overwriteMsg conflicts)
          (PendingConfirm.Overwrite OverwriteKind.Copy sources dest)) }, [])
    | none =>
      match w.copyRes sources dest false with
      | Except.ok _ =>
        (App.refresh_inactive w { a with status := "Copy complete".data } RefreshMode.Keep,
         [FsOp.copy sources dest false])
      | Except.error e =>
        ({ a with status := "Copy failed: ".data ++ e }, [FsOp.copy sources dest false])
  else
    match find_conflicts w sources dest with
    | some conflicts =>
      ({ a with modal := some (Modal.Confirm "Overwrite".data (overwriteMsg conflicts)
          (PendingConfirm.Overwrite OverwriteKind.Move sources dest)) }, [])
    | none =>
      match w.moveRes sources dest false with
      | Except.ok _ =>
        let a1 := App.refresh_active w { a with status := "Move complete".data } RefreshMode.Keep
        (App.refresh_inactive w a1 RefreshMode.Keep, [FsOp.move sources dest false])
      | Except.error e =>
        ({ a with status := "Move failed: ".data ++ e }, [FsOp.move sources dest false])

/-- The body of `app.rs::App::handle_copy_move_dialog_key` for a dialog
state `st`; `mk` rebuilds the modal variant the state was taken from. -/
def cmDialogKey (w : World) (a : App) (key : KeyCode) (st : CopyDialogState)
    (mk : CopyDialogState → Modal) (is_copy : Bool) : App × List FsOp :=
  match key with
  | KeyCode.Escape => ({ a with modal := none }, [])
  | KeyCode.Tab =>
    ({ a with modal := some (mk { st with focus := cmFocusNext st.focus }) }, [])
  | KeyCode.BackTab =>
    ({ a with modal := some (mk { st with focus := cmFocusPrev st.focus }) }, [])
  | KeyCode.Char ' ' =>
    let st' :=
      match st.focus with
      | CopyDialogFocus.IncludeSubdirs => { st with include_subdirs := !st.include_subdirs }
      | CopyDialogFocus.CopyNewerOnly => { st with copy_newer_only := !st.copy_newer_only }
      | CopyDialogFocus.UseFilters => { st with use_filters := !st.use_filters }
      | CopyDialogFocus.CheckTargetSpace => { st with check_target_space := !st.check_target_space }
      | CopyDialogFocus.Input =>
        { st with dest := st.dest.insertIdx st.cursor ' ', cursor := st.cursor + 1 }
      | _ => st
    ({ a with modal := some (mk st') }, [])
  | KeyCode.Enter =>
    match st.focus with
    | CopyDialogFocus.Input => cmCommit w a st is_copy
    | CopyDialogFocus.BtnCopy => cmCommit w a st is_copy
    | CopyDialogFocus.IncludeSubdirs =>
      let st' := { st with include_subdirs := !st.include_subdirs }
      if a.modal.isSome then ({ a with modal := some (mk st') }, []) else (a, [])
    | CopyDialogFocus.CopyNewerOnly =>
      let st' := { st with copy_newer_only := !st.copy_newer_only }
      if a.modal.isSome then ({ a with modal := some (mk st') }, []) else (a, [])
    | CopyDialogFocus.UseFilters =>
      let st' := { st with use_filters := !st.use_filters }
      if a.modal.isSome then ({ a with modal := some (mk st') }, []) else (a, [])
    | CopyDialogFocus.CheckTargetSpace =>
      let st' := { st with check_target_space := !st.check_target_space }
      if a.modal.isSome then ({ a with modal := some (mk st') }, []) else (a, [])
    | CopyDialogFocus.BtnTree =>
      ({ a with status := "Tree browser not implemented".data, modal := some (mk st) }, [])
    | CopyDialogFocus.BtnFilters =>
      ({ a with status := "Filters not implemented".data, modal := some (mk st) }, [])
    | CopyDialogFocus.BtnCancel => ({ a with modal := none }, [])
  | KeyCode.Left =>
    if st.focus = CopyDialogFocus.Input then
      let st' := if st.cursor > 0 then { st with cursor := st.cursor - 1 } else st
      ({ a with modal := some (mk st') }, [])
    else ({ a with modal := some (mk st) }, [])
  | KeyCode.Right =>
    if st.focus = CopyDialogFocus.Input then
      let st' := if st.cursor < st.dest.length then { st with cursor := st.cursor + 1 } else st
      ({ a with modal := some (mk st') }, [])
    else ({ a with modal := some (mk st) }, [])
  | KeyCode.Backspace =>
    if st.focus = CopyDialogFocus.Input then
      let st' :=
        if st.cursor > 0 then
          { st with cursor := st.cursor - 1, dest := st.dest.eraseIdx (st.cursor - 1) }
        else st
      ({ a with modal := some (mk st') }, [])
    else ({ a with modal := some (mk st) }, [])
  | KeyCode.Delete =>
    if st.focus = CopyDialogFocus.Input then
      let st' :=
        if st.cursor < st.dest.length then { st with dest := st.dest.eraseIdx st.cursor }
        else st
      ({ a with modal := some (mk st') }, [])
    else ({ a with modal := some (mk st) }, [])
  | KeyCode.Char ch =>
    if st.focus = CopyDialogFocus.Input then
      ({ a with modal := some (mk
          { st with dest := st.dest.insertIdx st.cursor ch, cursor := st.cursor + 1 }) }, [])
    else ({ a with modal := some (mk st) }, [])
  | KeyCode.Home =>
    if st.focus = CopyDialogFocus.Input then
      ({ a with modal := some (mk { st with cursor := 0 }) }, [])
    else ({ a with modal := some (mk st) }, [])
  | KeyCode.End =>
    if st.focus = CopyDialogFocus.Input then
      ({ a with modal := some (mk { st with cursor := st.dest.length }) }, [])
    else ({ a with modal := some (mk st) }, [])
  | _ => ({ a with modal := some (mk st) }, [])

/-- `app.rs::App::handle_copy_move_dialog_key`. -/
def handle_copy_move_dialog_key (w : World) (a : App) (key : KeyCode)
    (modal : Modal) (is_copy : Bool) : App × List FsOp :=
  match modal with
  | Modal.CopyDialog st => cmDialogKey w a key st Modal.CopyDialog is_copy
  | Modal.MoveDialog st => cmDialogKey w a key st Modal.MoveDialog is_copy
  | _ => ({ a with modal := some modal }, [])

/-- The `Modal::Confirm` arm of `app.rs::App::handle_modal_key`:
`'y'`/Enter executes the pending action and closes the modal, `'n'`/Escape
closes it with no effect, anything else keeps it open. -/
def handle_confirm_key (w : World) (a : App) (key : KeyCode)
    (title message : Str) (action : PendingConfirm) : App × List FsOp :=
  match key with
  | KeyCode.Char 'y' =>
    let (a1, ops) := App.execute_confirm w a action
    ({ a1 with modal := none }, ops)
  | KeyCode.Enter =>
    let (a1, ops) := App.execute_confirm w a action
    ({ a1 with modal := none }, ops)
  | KeyCode.Char 'n' => ({ a with modal := none }, [])
  | KeyCode.Escape => ({ a with modal := none }, [])
  | _ => ({ a with modal := some (Modal.Confirm title message action) }, [])

/-- `app.rs::selected_paths`: the multi-selection in entry order, or the
single highlighted entry when the multi-selection is empty. -/
def selected_paths (p : Pane) : List FPath :=
  if p.selected = ∅ then
    match p.selected_entry with
    | some e => [e.path]
    | none => []
  else (p.entries.filter (fun e => decide (e.path ∈ p.selected))).map (fun e => e.path)

/-- `app.rs::App::begin_delete`. -/
def App.begin_delete (a : App) : App :=
  if (App.active_pane a).vfs.isSome then
    { a with status := "Delete in archive not supported".data }
  else
    let sources := selected_paths (App.active_pane a)
    if sources.isEmpty then { a with status := "No file selected".data }
    else
      let source_name :=
        if sources.length = 1 then
          (((App.active_pane a).selected_entry).map (fun e => e.name)).getD []
        else natStr sources.length ++ " files".data
      { a with modal := some (Modal.DeleteDialog sources source_name false 1) }

/-! ## Concrete fixtures used by witnesses and counterexamples -/

/-- A world in which every filesystem operation fails and nothing exists. -/
def errWorld : World where
  readDir := fun _ => Except.error "io".data
  zipEntries := fun _ => Except.error "io".data
  metaOf := fun _ => none
  pathExists := fun _ => false
  pathIsDir := fun _ => false
  copyRes := fun _ _ _ => Except.error "io".data
  moveRes := fun _ _ _ => Except.error "io".data
  removeRes := fun _ => Except.error "io".data
  mkdirRes := fun _ => Except.error "io".data
  chmodRes := fun _ _ => Except.error "io".data
  findRes := fun _ _ _ => []
  syncRes := fun _ _ _ => Except.error "io".data

/-- A world whose directory listings are all empty (and succeed). -/
def emptyDirWorld : World :=
  { errWorld with readDir := fun _ => Except.ok [] }

/-- A file entry fixture. -/
def sampleEntry (nm : Str) : Entry :=
  { name := nm, path := [nm], is_dir := false, size := 0, modified := none,
    is_system := false }

/-- A pane browsing `cwd` with the given entries, cursor at 0. -/
def samplePane (cwd : FPath) (es : List Entry) : Pane :=
  { cwd := cwd, entries := es, state := { selected := some 0, offset := 0 },
    selected := ∅, sort_mode := SortMode.NameAsc, dirs_first := true,
    vfs := none, panelized := none, mode := PanelMode.Full }

/-- A five-entry pane (end-to-end scenario 4). -/
def pane5 : Pane :=
  samplePane [] [sampleEntry "a".data, sampleEntry "b".data, sampleEntry "c".data,
    sampleEntry "d".data, sampleEntry "e".data]

/-- A pane with empty entries but an (unreachable) non-trivial cursor
state. -/
def emptyBadPane : Pane :=
  { cwd := [], entries := [], state := { selected := some 0, offset := 5 },
    selected := ∅, sort_mode := SortMode.NameAsc, dirs_first := true,
    vfs := none, panelized := none, mode := PanelMode.Full }

/-- A pane browsing the root of the archive `/a/x.zip` from `cwd = /a`. -/
def archiveRootPane : Pane :=
  { samplePane ["a".data] [] with
      vfs := some { zip_path := ["a".data, "x.zip".data], pfx := [] } }

/-- The directory entry the zip listing derives for `docs/` (end-to-end
scenario 2). -/
def dEntry : Entry :=
  { name := "docs".data, path := ["docs".data], is_dir := true, size := 0,
    modified := none, is_system := false }

/-- The file entry the zip listing derives for `readme.txt` with stored
size `sz` (end-to-end scenario 2). -/
def rEntry (sz : Nat) : Entry :=
  { name := "readme.txt".data, path := ["readme.txt".data], is_dir := false,
    size := sz, modified := none, is_system := false }

/-- A world holding one archive `/x.zip` whose single stored entry is
`docs/readme.txt` of size 7. -/
def zipWorld : World :=
  { errWorld with
      zipEntries := fun q =>
        if q = ["x.zip".data] then
          Except.ok [{ name := "docs/readme.txt".data, is_dir := false, size := 7 }]
        else Except.error "io".data }

/-- A pane with two entries of which `g` is multi-selected. -/
def selPane : Pane :=
  { samplePane ["a".data] [sampleEntry "f".data, sampleEntry "g".data] with
      selected := {(["g".data] : FPath)} }

/-- A two-pane controller fixture with `selPane` active on the left. -/
def app10 : App :=
  { left := selPane, right := samplePane [] [], active := ActivePane.Left,
    show_hidden := true, status := [], modal := none }

/-- The subset invariant of §3: every selected path occurs among the
current entries. -/
abbrev SelInv (p : Pane) : Prop := ∀ x ∈ p.selected, ∃ e ∈ p.entries, e.path = x

/-- The filesystem mutation `execute_confirm` issues for an `Overwrite`
pending action: the overwriting copy or move. -/
def overwriteOp (kind : OverwriteKind) (sources : List FPath) (dest : FPath) : FsOp :=
  match kind with
  | OverwriteKind.Copy => FsOp.copy sources dest true
  | OverwriteKind.Move => FsOp.move sources dest true

/-- A minimal two-pane controller fixture. -/
def app0 : App :=
  { left := samplePane [] [], right := samplePane [] [], active := ActivePane.Left,
    show_hidden := true, status := [], modal := none }

/-- A copy/move dialog state over source `/s` and destination text `d`,
focused on the input field. -/
def st0 : CopyDialogState :=
  { sources := [["s".data]], source_name := "s".data, dest := "d".data, cursor := 0,
    include_subdirs := true, copy_newer_only := false, use_filters := false,
    check_target_space := false, focus := CopyDialogFocus.Input }

/-- A world in which exactly the path `/d` exists (the copy destination
conflicts). -/
def c1World : World :=
  { errWorld with pathExists := fun q => q = ["d".data] }

/-- An ordinary archive path segment: the directory-entry names produced
by the zip listing (non-empty, no separator, not the `.` component). -/
abbrev ZipSeg (s : Str) : Prop := s ≠ [] ∧ '/' ∉ s ∧ s ≠ ['.']

/-- The archive prefixes reachable by navigation: the empty root prefix,
or a reachable prefix extended by one ordinary segment and `/` (exactly
the strings `zip_child_prefix` builds). -/
inductive ValidArchiveDir : Str → Prop
  | root : ValidArchiveDir []
  | child (p n : Str) : ValidArchiveDir p → ZipSeg n →
      ValidArchiveDir (p ++ n ++ ['/'])

/-- Glue a list of segments into a prefix string, each segment followed by
`/`. -/
def joinSegs : List Str → Str
  | [] => []
  | s :: rest => s ++ '/' :: joinSegs rest

end Franken

namespace Franken

/-! ## Theorems -/

/-- **C9.** Each sort-axis toggle is a two-state flip restricted to its own
axis: applied twice on its own axis it returns the original mode, and
applied from any other mode (another axis or `Unsorted`) it lands on the
axis's designated entry state (`NameAsc`, `ExtAsc`, `TimeDesc`,
`SizeDesc`), never on a state derived from the previously active axis. -/
theorem c9_sort_toggles :
    (∀ m : SortMode, (m = SortMode.NameAsc ∨ m = SortMode.NameDesc) →
      toggle_name_sort (toggle_name_sort m) = m) ∧
    (∀ m : SortMode, ¬(m = SortMode.NameAsc ∨ m = SortMode.NameDesc) →
      toggle_name_sort m = SortMode.NameAsc) ∧
    (∀ m : SortMode, (m = SortMode.ExtAsc ∨ m = SortMode.ExtDesc) →
      toggle_ext_sort (toggle_ext_sort m) = m) ∧
    (∀ m : SortMode, ¬(m = SortMode.ExtAsc ∨ m = SortMode.ExtDesc) →
      toggle_ext_sort m = SortMode.ExtAsc) ∧
    (∀ m : SortMode, (m = SortMode.TimeAsc ∨ m = SortMode.TimeDesc) →
      toggle_time_sort (toggle_time_sort m) = m) ∧
    (∀ m : SortMode, ¬(m = SortMode.TimeAsc ∨ m = SortMode.TimeDesc) →
      toggle_time_sort m = SortMode.TimeDesc) ∧
    (∀ m : SortMode, (m = SortMode.SizeAsc ∨ m = SortMode.SizeDesc) →
      toggle_size_sort (toggle_size_sort m) = m) ∧
    (∀ m : SortMode, ¬(m = SortMode.SizeAsc ∨ m = SortMode.SizeDesc) →
      toggle_size_sort m = SortMode.SizeDesc) := by
  refine ⟨?_, ?_, ?_, ?_, ?_, ?_, ?_, ?_⟩ <;> rintro m h <;> cases m <;>
    simp_all [toggle_name_sort, toggle_ext_sort, toggle_time_sort, toggle_size_sort]

/-- Witness for C9: name-toggle round trip from `NameAsc`, and a name
toggle from `SizeAsc` resets to `NameAsc`. -/
theorem c9_sort_toggles_witness :
    toggle_name_sort (toggle_name_sort SortMode.NameAsc) = SortMode.NameAsc ∧
    toggle_name_sort SortMode.SizeAsc = SortMode.NameAsc :=
  ⟨c9_sort_toggles.1 SortMode.NameAsc (Or.inl rfl),
   c9_sort_toggles.2.1 SortMode.SizeAsc (by decide)⟩

/-- Unfolding equation for `find_conflicts`. -/
theorem find_conflicts_eq (w : World) (s : List FPath) (d : FPath) :
    find_conflicts w s d =
      (if 0 < s.countP (fun src => w.pathExists
          (if w.pathIsDir d || decide (s.length > 1) then pjoin d (fileName src) else d))
       then some (s.countP (fun src => w.pathExists
          (if w.pathIsDir d || decide (s.length > 1) then pjoin d (fileName src) else d)))
       else none) := rfl

/-- **C8.** `find_conflicts` maps each source to `dest/filename(src)` when
the destination is a directory or there are several sources, and to `dest`
itself for a single source with a non-directory destination; it returns
`some k` only for `k > 0`, `none` exactly when no computed target exists,
`Some 1` in the two-source scenario with one basename collision, and, for
a single source against a non-directory destination, a conflict exactly
when the destination path itself exists. -/
theorem c8_find_conflicts :
    (∀ (w : World) (s : List FPath) (d : FPath) (k : Nat),
      find_conflicts w s d = some k → 0 < k) ∧
    (∀ (w : World) (s : List FPath) (d : FPath),
      find_conflicts w s d = none ↔
        ∀ src ∈ s, w.pathExists
          (if w.pathIsDir d = true ∨ 1 < s.length then pjoin d (fileName src) else d) = false) ∧
    (∀ (w : World) (a b d : FPath) (na nb : Str),
      w.pathIsDir d = true → fileName a = na → fileName b = nb →
      na ≠ [] → nb ≠ [] →
      w.pathExists (d ++ [na]) = true → w.pathExists (d ++ [nb]) = false →
      find_conflicts w [a, b] d = some 1) ∧
    (∀ (w : World) (a d : FPath), w.pathIsDir d = false →
      find_conflicts w [a] d = (if w.pathExists d = true then some 1 else none)) := by
  refine ⟨?_, ?_, ?_, ?_⟩
  · intro w s d k h
    rw [find_conflicts_eq] at h
    by_cases hp : 0 < s.countP (fun src => w.pathExists
        (if w.pathIsDir d || decide (s.length > 1) then pjoin d (fileName src) else d))
    · rw [if_pos hp] at h
      have hk := Option.some.inj h
      omega
    · rw [if_neg hp] at h
      exact Option.noConfusion h
  · intro w s d
    rw [find_conflicts_eq]
    rcases Nat.eq_zero_or_pos (s.countP (fun src => w.pathExists
        (if w.pathIsDir d || decide (s.length > 1) then pjoin d (fileName src) else d)))
      with hz | hp
    · rw [hz, if_neg (Nat.lt_irrefl 0)]
      constructor
      · intro _ src hsrc
        have hn := List.countP_eq_zero.mp hz src hsrc
        simpa [Bool.or_eq_true, decide_eq_true_eq] using hn
      · intro _
        rfl
    · rw [if_pos hp]
      constructor
      · intro h
        exact Option.noConfusion h
      · intro h
        exfalso
        have hz : s.countP (fun src => w.pathExists
            (if w.pathIsDir d || decide (s.length > 1) then pjoin d (fileName src) else d)) = 0 := by
          refine List.countP_eq_zero.mpr ?_
          intro src hsrc
          have hn := h src hsrc
          simpa [Bool.or_eq_true, decide_eq_true_eq] using hn
        omega
  · intro w a b d na nb hdir hfa hfb hna hnb hexa hexb
    have hc : (w.pathIsDir d || decide (([a, b] : List FPath).length > 1)) = true := by
      rw [hdir]; rfl
    simp [find_conflicts, hc, List.countP_cons, List.countP_nil,
      hfa, hfb, pjoin, hna, hnb, hexa, hexb]
  · intro w a d hdir
    cases hx : w.pathExists d <;>
      simp [find_conflicts, hdir, hx, List.countP_cons, List.countP_nil]

/-- Witness for C8: a concrete world in which `/d` is a directory
containing `a`, sources `[/s/a, /s/b]`, destination `/d`. -/
theorem c8_find_conflicts_witness :
    find_conflicts
      { errWorld with
          pathIsDir := fun q => q = ["d".data],
          pathExists := fun q => q = ["d".data, "a".data] }
      [["s".data, "a".data], ["s".data, "b".data]] ["d".data] = some 1 :=
  c8_find_conflicts.2.2.1
    { errWorld with
        pathIsDir := fun q => q = ["d".data],
        pathExists := fun q => q = ["d".data, "a".data] }
    ["s".data, "a".data] ["s".data, "b".data] ["d".data]
    "a".data "b".data (by decide) rfl rfl (by decide) (by decide)
    (by decide) (by decide)

/-- **C7 counterexample.** On an empty entries list `move_selection` is not
a no-op for every pane state: a pane with empty entries but a non-trivial
cursor state is normalized to `(none, 0)`. -/
theorem c7_empty_not_noop : Pane.move_selection emptyBadPane 0 10 ≠ emptyBadPane := by
  decide

/-- **C7 (amended).** For every pane, integer delta and positive view
height: on a non-empty entries list `move_selection` sets the cursor to
`clamp(current + delta, 0, len-1)`, adjusts the offset by the rule `if
next < offset then offset := next; else if next ≥ offset + view_height
then offset := next - view_height + 1`, leaves the entries unchanged, and
the new index ends up inside `[offset, offset + view_height)`.  On an
empty entries list it sets the cursor state to `(none, 0)` — a no-op
exactly when the pane already carries that normalized empty-list cursor
state, as after any refresh of an empty listing. -/
theorem c7_move_selection (p : Pane) (delta : Int) (vh : Nat) (hvh : 0 < vh) :
    (p.entries = [] → Pane.move_selection p delta vh =
      { p with state := { selected := none, offset := 0 } }) ∧
    (p.entries ≠ [] →
      (Pane.move_selection p delta vh).entries = p.entries ∧
      (Pane.move_selection p delta vh).state.selected =
        some (max 0 (min ((p.state.selected.getD 0 : Nat) + delta)
          ((p.entries.length - 1 : Nat) : Int))).toNat ∧
      (Pane.move_selection p delta vh).state.offset =
        (if (max 0 (min ((p.state.selected.getD 0 : Nat) + delta)
              ((p.entries.length - 1 : Nat) : Int))).toNat < p.state.offset then
          (max 0 (min ((p.state.selected.getD 0 : Nat) + delta)
            ((p.entries.length - 1 : Nat) : Int))).toNat
         else if p.state.offset + vh ≤ (max 0 (min ((p.state.selected.getD 0 : Nat) + delta)
              ((p.entries.length - 1 : Nat) : Int))).toNat then
          (max 0 (min ((p.state.selected.getD 0 : Nat) + delta)
            ((p.entries.length - 1 : Nat) : Int))).toNat - vh + 1
         else p.state.offset) ∧
      (Pane.move_selection p delta vh).state.offset ≤
        (max 0 (min ((p.state.selected.getD 0 : Nat) + delta)
          ((p.entries.length - 1 : Nat) : Int))).toNat ∧
      (max 0 (min ((p.state.selected.getD 0 : Nat) + delta)
          ((p.entries.length - 1 : Nat) : Int))).toNat <
        (Pane.move_selection p delta vh).state.offset + vh) := by
  constructor
  · intro he
    simp [Pane.move_selection, he]
  · intro he
    have hne : p.entries.isEmpty = false := by
      cases hE : p.entries with
      | nil => exact absurd hE he
      | cons x xs => rfl
    set next : Nat := (max 0 (min ((p.state.selected.getD 0 : Nat) + delta)
      ((p.entries.length - 1 : Nat) : Int))).toNat with hnext
    have hstate : (Pane.move_selection p delta vh).state =
        ensure_visible { p.state with selected := some next } vh := by
      simp [Pane.move_selection, hne, hnext]
    have hentries : (Pane.move_selection p delta vh).entries = p.entries := by
      simp [Pane.move_selection, hne]
    have hsel' : (ensure_visible { p.state with selected := some next } vh).selected =
        some next := by
      unfold ensure_visible
      dsimp only
      split_ifs <;> rfl
    have hoff' : (ensure_visible { p.state with selected := some next } vh).offset =
        (if next < p.state.offset then next
         else if p.state.offset + vh ≤ next then next - vh + 1
         else p.state.offset) := by
      unfold ensure_visible
      dsimp only
      split_ifs <;> dsimp only <;> omega
    refine ⟨hentries, ?_, ?_, ?_, ?_⟩
    · rw [hstate, hsel']
    · rw [hstate, hoff']
    · rw [hstate, hoff']
      split_ifs <;> omega
    · rw [hstate, hoff']
      split_ifs <;> omega

/-- Witness for C7 (end-to-end scenario 4): `move_selection(+1000, 10)` on
a five-entry pane selects index 4 and keeps it visible at offset 0. -/
theorem c7_move_selection_witness :
    (Pane.move_selection pane5 1000 10).state.selected = some 4 ∧
    (Pane.move_selection pane5 1000 10).state.offset = 0 := by
  obtain ⟨-, hsel, hoff, -, -⟩ :=
    (c7_move_selection pane5 1000 10 (by norm_num)).2 (by decide)
  constructor
  · rw [hsel]
    decide
  · rw [hoff]
    decide

/-- Splitting a string that does not contain the separator yields the
whole string as the single piece. -/
theorem splitCh_no_sep {sep : Char} {s : Str} (h : sep ∉ s) : splitCh sep s = [s] := by
  induction s with
  | nil => rfl
  | cons c rest ih =>
    have hc : ¬ c = sep := by
      intro hce
      exact h (by simp [hce])
    have hrest : sep ∉ rest := fun hm => h (List.mem_cons_of_mem _ hm)
    simp [splitCh, hc, ih hrest]

/-- Splitting past a separator-free head piece. -/
theorem splitCh_append_sep {sep : Char} {s : Str} (h : sep ∉ s) (t : Str) :
    splitCh sep (s ++ sep :: t) = s :: splitCh sep t := by
  induction s with
  | nil => simp [splitCh]
  | cons c rest ih =>
    have hc : ¬ c = sep := by
      intro hce
      exact h (by simp [hce])
    have hrest : sep ∉ rest := fun hm => h (List.mem_cons_of_mem _ hm)
    simp [splitCh, hc, ih hrest]

/-- `joinSegs` distributes over list append. -/
theorem joinSegs_append (xs ys : List Str) :
    joinSegs (xs ++ ys) = joinSegs xs ++ joinSegs ys := by
  induction xs with
  | nil => rfl
  | cons c rest ih => simp [joinSegs, ih]

/-- A reachable archive prefix splits into its segment list in front of
any continuation string. -/
theorem valid_split {p : Str} (hp : ValidArchiveDir p) :
    ∀ t : Str, ∃ cs : List Str, splitCh '/' (p ++ t) = cs ++ splitCh '/' t ∧
      (∀ c ∈ cs, ZipSeg c) ∧ joinSegs cs = p := by
  induction hp with
  | root =>
    intro t
    exact ⟨[], by simp, by simp, rfl⟩
  | child q n hq hn ih =>
    intro t
    obtain ⟨cs, hsplit, hseg, hjoin⟩ := ih (n ++ '/' :: t)
    refine ⟨cs ++ [n], ?_, ?_, ?_⟩
    · rw [show (q ++ n ++ ['/']) ++ t = q ++ (n ++ '/' :: t) by simp]
      rw [hsplit, splitCh_append_sep hn.2.1 t]
      simp
    · intro c hc
      rcases List.mem_append.mp hc with h | h
      · exact hseg c h
      · rw [List.mem_singleton.mp h]
        exact hn
    · rw [joinSegs_append, hjoin]
      simp [joinSegs]

/-- Trimming the trailing slash of a prefix extended by one clean segment
and `/`. -/
theorem trimEndSlashes_append {s n : Str} (hne : n ≠ []) (hn : '/' ∉ n) :
    trimEndSlashes (s ++ n ++ ['/']) = s ++ n := by
  unfold trimEndSlashes
  obtain ⟨c, t, hct⟩ : ∃ c t, n.reverse = c :: t := by
    cases hr : n.reverse with
    | nil => exact absurd (List.reverse_eq_nil_iff.mp hr) hne
    | cons c t => exact ⟨c, t, rfl⟩
  have hcn : c ∈ n := by
    have hcr : c ∈ n.reverse := by
      rw [hct]
      exact List.mem_cons_self c t
    exact List.mem_reverse.mp hcr
  have hcs : ¬ c = '/' := fun hceq => hn (hceq ▸ hcn)
  rw [show (s ++ n ++ ['/']).reverse = '/' :: (n.reverse ++ s.reverse) by simp]
  rw [List.dropWhile_cons]
  have hstop : List.dropWhile (fun x => decide (x = '/')) (n.reverse ++ s.reverse) =
      n.reverse ++ s.reverse := by
    rw [hct, List.cons_append, List.dropWhile_cons]
    simp [hcs]
  simp [hstop]

/-- Rebuilding a non-empty segment list: intercalation plus a final slash
equals the glued prefix. -/
theorem joinSlash_append_slash (c : Str) (cs : List Str) :
    joinSlash (c :: cs) ++ ['/'] = joinSegs (c :: cs) := by
  induction cs generalizing c with
  | nil => rfl
  | cons d ds ih =>
    calc joinSlash (c :: d :: ds) ++ ['/']
        = c ++ '/' :: (joinSlash (d :: ds) ++ ['/']) := by simp [joinSlash]
      _ = c ++ '/' :: joinSegs (d :: ds) := by rw [ih d]
      _ = joinSegs (c :: d :: ds) := rfl

/-- Intercalating a list headed by a non-empty segment is non-empty. -/
theorem joinSlash_ne_nil {c : Str} (hc : c ≠ []) (cs : List Str) :
    joinSlash (c :: cs) ≠ [] := by
  cases cs with
  | nil => simpa [joinSlash] using hc
  | cons d ds => simp [joinSlash]

/-- Core of C6: ascending from a child prefix returns the original
reachable prefix. -/
theorem zip_parent_prefix_child {p n : Str} (hp : ValidArchiveDir p) (hn : ZipSeg n) :
    zip_parent_prefix ( zip_child_prefix p [n]) = some p := by
  obtain ⟨cs, hsplit, hseg, hjoin⟩ := valid_split hp n
  have hchild : zip_child_prefix p [n] = p ++ n ++ ['/'] := by
    simp [ zip_child_prefix, joinSlash]
  have htrim : trimEndSlashes (p ++ n ++ ['/']) = p ++ n :=
    trimEndSlashes_append hn.1 hn.2.1
  have hcomps : pathComponents (p ++ n) = cs ++ [n] := by
    unfold pathComponents
    rw [hsplit, splitCh_no_sep hn.2.1, List.filter_append]
    congr 1
    · refine List.filter_eq_self.mpr ?_
      intro c hc
      have hcseg := hseg c hc
      simp [hcseg.1, hcseg.2.2]
    · simp [hn.1, hn.2.2]
  have hparent : pathParent (p ++ n) = some (joinSlash cs) := by
    unfold pathParent
    rw [hcomps]
    cases hcs : cs ++ [n] with
    | nil => exact absurd hcs (by simp)
    | cons a as =>
      show some (joinSlash (a :: as).dropLast) = some (joinSlash cs)
      rw [← hcs, List.dropLast_concat]
  rw [hchild]
  simp only [ zip_parent_prefix]
  rw [htrim, hparent]
  dsimp only
  cases cs with
  | nil =>
    have hp0 : p = [] := by simpa [joinSegs] using hjoin.symm
    subst hp0
    simp [joinSlash]
  | cons c cs' =>
    have hcne : c ≠ [] := (hseg c (List.mem_cons_self c cs')).1
    rw [if_neg (joinSlash_ne_nil hcne cs')]
    rw [joinSlash_append_slash c cs', hjoin]

/-- **C6.** VFS prefix arithmetic round-trips: for every reachable archive
prefix `p` (empty, or built by `zip_child_prefix` from ordinary segment
names) and every such directory-entry name `n`,
`zip_parent_prefix (zip_child_prefix p n) = some p`, and the parent of the
empty root prefix is `none`. -/
theorem c6_vfs_roundtrip :
    (∀ p n : Str, ValidArchiveDir p → ZipSeg n →
       zip_parent_prefix ( zip_child_prefix p [n]) = some p) ∧
    zip_parent_prefix [] = none :=
  ⟨fun _ _ hp hn => zip_parent_prefix_child hp hn, by decide⟩

/-- Witness for C6: round trip at prefix `"docs/"` with segment `"sub"`. -/
theorem c6_vfs_roundtrip_witness :
    zip_parent_prefix ( zip_child_prefix "docs/".data ["sub".data]) =
      some "docs/".data ∧
    zip_parent_prefix [] = none := by
  constructor
  · exact c6_vfs_roundtrip.1 "docs/".data "sub".data
      (ValidArchiveDir.child [] "docs".data ValidArchiveDir.root
        ⟨by decide, by decide, by decide⟩)
      ⟨by decide, by decide, by decide⟩
  · exact c6_vfs_roundtrip.2

/-- A refresh that reports an error returns the pane unchanged. -/
theorem refresh_error_snd (w : World) (p : Pane) (mode : RefreshMode) (sh : Bool)
    (e : Str) (h : (Pane.refresh w p mode sh).1 = Except.error e) :
    (Pane.refresh w p mode sh).2 = p := by
  unfold Pane.refresh at h ⊢
  cases hls : Pane.listSource w p sh with
  | error e2 => rfl
  | ok entries =>
    rw [hls] at h
    exfalso
    revert h
    dsimp only
    split
    · exact fun h => Except.noConfusion h
    · split <;> exact fun h => Except.noConfusion h

/-- Refresh never changes the pane's addressing or configuration state. -/
theorem refresh_fields (w : World) (p : Pane) (mode : RefreshMode) (sh : Bool) :
    (Pane.refresh w p mode sh).2.cwd = p.cwd ∧
    (Pane.refresh w p mode sh).2.vfs = p.vfs ∧
    (Pane.refresh w p mode sh).2.panelized = p.panelized := by
  unfold Pane.refresh
  cases hls : Pane.listSource w p sh with
  | error e => exact ⟨rfl, rfl, rfl⟩
  | ok entries =>
    refine ⟨?_, ?_, ?_⟩ <;>
      · dsimp only
        split
        · rfl
        · split <;> rfl

/-- A refresh that reports success replaced the entries by the freshly
listed ones and filtered the selection against them. -/
theorem refresh_ok_spec (w : World) (p : Pane) (mode : RefreshMode) (sh : Bool)
    (h : (Pane.refresh w p mode sh).1 = Except.ok ()) :
    ∃ entries, Pane.listSource w p sh = Except.ok entries ∧
      (Pane.refresh w p mode sh).2.entries = entries ∧
      (Pane.refresh w p mode sh).2.selected =
        p.selected.filter (fun path => entries.any (fun e => e.path == path) = true) := by
  unfold Pane.refresh at h ⊢
  cases hls : Pane.listSource w p sh with
  | error e =>
    rw [hls] at h
    exact Except.noConfusion h
  | ok entries =>
    refine ⟨entries, rfl, ?_, ?_⟩ <;>
      · dsimp only
        split
        · rfl
        · split <;> rfl

/-- Branch equation: `go_parent_rest` on a panelized pane clears the list
and refreshes in place. -/
theorem go_parent_rest_eq_panelized (w : World) (p : Pane) (sh : Bool)
    (hp : p.panelized.isSome = true) :
    Pane.go_parent_rest w p sh =
      Pane.refresh w { p with panelized := none } RefreshMode.Reset sh := by
  unfold Pane.go_parent_rest
  rw [if_pos hp]

/-- Branch equation: `go_parent_rest` with a parent directory moves `cwd`
up and refreshes. -/
theorem go_parent_rest_eq_parent (w : World) (p : Pane) (sh : Bool) (parent : FPath)
    (hp : ¬p.panelized.isSome = true) (hcp : fpathParent p.cwd = some parent) :
    Pane.go_parent_rest w p sh =
      Pane.refresh w { p with cwd := parent } RefreshMode.Reset sh := by
  unfold Pane.go_parent_rest
  rw [if_neg hp, hcp]

/-- Branch equation: `go_parent_rest` at the filesystem root does
nothing. -/
theorem go_parent_rest_eq_stay (w : World) (p : Pane) (sh : Bool)
    (hp : ¬p.panelized.isSome = true) (hcp : fpathParent p.cwd = none) :
    Pane.go_parent_rest w p sh = (Except.ok (), p) := by
  unfold Pane.go_parent_rest
  rw [if_neg hp, hcp]

/-- Branch equation: `go_parent` below the archive root ascends one
prefix segment and refreshes. -/
theorem go_parent_eq_ascend (w : World) (p : Pane) (sh : Bool) (v : VfsState)
    (parent : Str) (hv : p.vfs = some v)
    (hz : zip_parent_prefix v.pfx = some parent) :
    Pane.go_parent w p sh =
      Pane.refresh w { p with vfs := some { zip_path := v.zip_path, pfx := parent } }
        RefreshMode.Reset sh := by
  unfold Pane.go_parent
  rw [hv]
  dsimp only
  rw [hz]

/-- Branch equation: `go_parent` at the archive root clears `vfs` and
falls through to the directory behaviour. -/
theorem go_parent_eq_root (w : World) (p : Pane) (sh : Bool) (v : VfsState)
    (hv : p.vfs = some v) (hz : zip_parent_prefix v.pfx = none) :
    Pane.go_parent w p sh = Pane.go_parent_rest w { p with vfs := none } sh := by
  unfold Pane.go_parent
  rw [hv]
  dsimp only
  rw [hz]

/-- Branch equation: `go_parent` outside an archive is the directory
behaviour. -/
theorem go_parent_eq_dir (w : World) (p : Pane) (sh : Bool) (hv : p.vfs = none) :
    Pane.go_parent w p sh = Pane.go_parent_rest w p sh := by
  unfold Pane.go_parent
  rw [hv]

/-- The `refresh?; Ok(true)` wrapper propagates errors with the pane it
was handed (which the failed refresh left unchanged). -/
theorem refreshThen_error (w : World) (q : Pane) (sh : Bool) (e : Str)
    (h : (Pane.refreshThen w q sh).1 = Except.error e) :
    (Pane.refreshThen w q sh).2 = q := by
  cases hr : Pane.refresh w q RefreshMode.Reset sh with
  | mk fst snd =>
    cases fst with
    | error e2 =>
      have ht : Pane.refreshThen w q sh = (Except.error e2, snd) := by
        unfold Pane.refreshThen
        rw [hr]
      rw [ht]
      have h1 : (Pane.refresh w q RefreshMode.Reset sh).1 = Except.error e2 := by rw [hr]
      have h2 := refresh_error_snd w q RefreshMode.Reset sh e2 h1
      rw [hr] at h2
      exact h2
    | ok b =>
      have ht : Pane.refreshThen w q sh = (Except.ok true, snd) := by
        unfold Pane.refreshThen
        rw [hr]
      rw [ht] at h
      exact Except.noConfusion h

/-- On an error, the directory part of `go_parent` keeps the old entries
and selection. -/
theorem go_parent_rest_error (w : World) (p : Pane) (sh : Bool) (e : Str)
    (h : (Pane.go_parent_rest w p sh).1 = Except.error e) :
    (Pane.go_parent_rest w p sh).2.entries = p.entries ∧
    (Pane.go_parent_rest w p sh).2.selected = p.selected := by
  by_cases hp : p.panelized.isSome = true
  · rw [go_parent_rest_eq_panelized w p sh hp] at h ⊢
    rw [refresh_error_snd _ _ _ _ _ h]
    exact ⟨rfl, rfl⟩
  · cases hcp : fpathParent p.cwd with
    | some parent =>
      rw [go_parent_rest_eq_parent w p sh parent hp hcp] at h ⊢
      rw [refresh_error_snd _ _ _ _ _ h]
      exact ⟨rfl, rfl⟩
    | none =>
      rw [go_parent_rest_eq_stay w p sh hp hcp] at h
      exact Except.noConfusion h

/-- On an error, `go_parent` keeps the old entries and selection. -/
theorem go_parent_error (w : World) (p : Pane) (sh : Bool) (e : Str)
    (h : (Pane.go_parent w p sh).1 = Except.error e) :
    (Pane.go_parent w p sh).2.entries = p.entries ∧
    (Pane.go_parent w p sh).2.selected = p.selected := by
  cases hv : p.vfs with
  | none =>
    rw [go_parent_eq_dir w p sh hv] at h ⊢
    exact go_parent_rest_error w p sh e h
  | some v =>
    cases hz : zip_parent_prefix v.pfx with
    | some parent =>
      rw [go_parent_eq_ascend w p sh v parent hv hz] at h ⊢
      rw [refresh_error_snd _ _ _ _ _ h]
      exact ⟨rfl, rfl⟩
    | none =>
      rw [go_parent_eq_root w p sh v hv hz] at h ⊢
      exact go_parent_rest_error w _ sh e h

/-- Branch equation: `enter_selected` on a directory entry inside an
archive descends by the child prefix. -/
theorem enter_eq_vfs_dir (w : World) (p : Pane) (sh : Bool) (entry : Entry)
    (v : VfsState) (hse : p.selected_entry = some entry) (hd : entry.is_dir = true)
    (hv : p.vfs = some v) :
    Pane.enter_selected w p sh =
      Pane.refreshThen w
        { p with vfs := some { v with pfx := zip_child_prefix v.pfx entry.path } } sh := by
  unfold Pane.enter_selected
  rw [hse]
  dsimp only
  rw [if_pos hd, hv]

/-- Branch equation: `enter_selected` on a directory entry in a real
directory moves `cwd` into it. -/
theorem enter_eq_dir (w : World) (p : Pane) (sh : Bool) (entry : Entry)
    (hse : p.selected_entry = some entry) (hd : entry.is_dir = true)
    (hv : p.vfs = none) :
    Pane.enter_selected w p sh =
      Pane.refreshThen w { p with cwd := entry.path, panelized := none } sh := by
  unfold Pane.enter_selected
  rw [hse]
  dsimp only
  rw [if_pos hd, hv]

/-- Branch equation: `enter_selected` on a `.zip` file outside an archive
enters the archive at the root prefix. -/
theorem enter_eq_zip (w : World) (p : Pane) (sh : Bool) (entry : Entry)
    (hse : p.selected_entry = some entry) (hd : ¬entry.is_dir = true)
    (hzip : ['.', 'z', 'i', 'p'].isSuffixOf (lowerStr entry.name) ∧ p.vfs = none) :
    Pane.enter_selected w p sh =
      Pane.refreshThen w { p with vfs := some { zip_path := entry.path, pfx := [] } } sh := by
  unfold Pane.enter_selected
  rw [hse]
  dsimp only
  rw [if_neg hd, if_pos hzip]

/-- On an error, `enter_selected` keeps the old entries and selection. -/
theorem enter_selected_error (w : World) (p : Pane) (sh : Bool) (e : Str)
    (h : (Pane.enter_selected w p sh).1 = Except.error e) :
    (Pane.enter_selected w p sh).2.entries = p.entries ∧
    (Pane.enter_selected w p sh).2.selected = p.selected := by
  cases hse : p.selected_entry with
  | none =>
    have hn : Pane.enter_selected w p sh = (Except.ok false, p) := by
      unfold Pane.enter_selected
      rw [hse]
    rw [hn] at h
    exact Except.noConfusion h
  | some entry =>
    by_cases hd : entry.is_dir = true
    · cases hv : p.vfs with
      | some v =>
        rw [enter_eq_vfs_dir w p sh entry v hse hd hv] at h ⊢
        rw [refreshThen_error _ _ _ _ h]
        exact ⟨rfl, rfl⟩
      | none =>
        rw [enter_eq_dir w p sh entry hse hd hv] at h ⊢
        rw [refreshThen_error _ _ _ _ h]
        exact ⟨rfl, rfl⟩
    · by_cases hzip : ['.', 'z', 'i', 'p'].isSuffixOf (lowerStr entry.name) ∧ p.vfs = none
      · rw [enter_eq_zip w p sh entry hse hd hzip] at h ⊢
        rw [refreshThen_error _ _ _ _ h]
        exact ⟨rfl, rfl⟩
      · have hn : Pane.enter_selected w p sh = (Except.ok false, p) := by
          unfold Pane.enter_selected
          rw [hse]
          dsimp only
          rw [if_neg hd, if_neg hzip]
        rw [hn] at h
        exact Except.noConfusion h

/-- What the directory part of `go_parent` does to the addressing state:
`vfs` is untouched, a panelized listing is cleared in place, otherwise
`cwd` moves to its parent when it has one. -/
theorem go_parent_rest_spec (w : World) (q : Pane) (sh : Bool) :
    (Pane.go_parent_rest w q sh).2.vfs = q.vfs ∧
    (q.panelized ≠ none →
      (Pane.go_parent_rest w q sh).2.cwd = q.cwd ∧
      (Pane.go_parent_rest w q sh).2.panelized = none) ∧
    (q.panelized = none →
      (Pane.go_parent_rest w q sh).2.cwd =
        (match fpathParent q.cwd with
         | some parent => parent
         | none => q.cwd)) := by
  by_cases hp : q.panelized.isSome = true
  · rw [go_parent_rest_eq_panelized w q sh hp]
    obtain ⟨hc, hvfs, hpan⟩ := refresh_fields w { q with panelized := none }
      RefreshMode.Reset sh
    have hqnot : q.panelized ≠ none := by
      intro hq0
      simp [hq0] at hp
    refine ⟨by rw [hvfs], fun _ => ⟨by rw [hc], by rw [hpan]⟩,
      fun h0 => absurd h0 hqnot⟩
  · have hqnone : q.panelized = none := Option.not_isSome_iff_eq_none.mp hp
    cases hcp : fpathParent q.cwd with
    | some parent =>
      rw [go_parent_rest_eq_parent w q sh parent hp hcp]
      obtain ⟨hc, hvfs, hpan⟩ := refresh_fields w { q with cwd := parent }
        RefreshMode.Reset sh
      exact ⟨by rw [hvfs], fun hne => absurd hqnone hne, fun _ => by rw [hc]⟩
    | none =>
      rw [go_parent_rest_eq_stay w q sh hp hcp]
      exact ⟨rfl, fun hne => absurd hqnone hne, fun _ => rfl⟩

/-- **C2 counterexample.** At the archive root, `go_parent` does not leave
`cwd` unchanged: after clearing `vfs` it falls through to the directory
branch and moves `cwd` to its filesystem parent in the same call. -/
theorem c2_go_parent_root_moves_cwd :
    (Pane.go_parent emptyDirWorld archiveRootPane true).2.vfs = none ∧
    (Pane.go_parent emptyDirWorld archiveRootPane true).2.cwd ≠ archiveRootPane.cwd := by
  decide

/-- **C2 (amended).** In archive mode, `go_parent` ascends one archive
segment (the prefix becomes `zip_parent_prefix` of the old prefix) without
touching `cwd` whenever the prefix has a parent; at the archive root it
clears `vfs` and then continues with the ordinary directory go-parent in
the same call: a panelized listing is cleared in place, otherwise `cwd`
moves to its filesystem parent when it has one and stays put only at the
filesystem root. -/
theorem c2_go_parent_archive (w : World) (p : Pane) (v : VfsState) (sh : Bool)
    (hv : p.vfs = some v) :
    (∀ par : Str, zip_parent_prefix v.pfx = some par →
      (Pane.go_parent w p sh).2.vfs = some { zip_path := v.zip_path, pfx := par } ∧
      (Pane.go_parent w p sh).2.cwd = p.cwd) ∧
    ( zip_parent_prefix v.pfx = none →
      (Pane.go_parent w p sh).2.vfs = none ∧
      (p.panelized ≠ none →
        (Pane.go_parent w p sh).2.cwd = p.cwd ∧
        (Pane.go_parent w p sh).2.panelized = none) ∧
      (p.panelized = none →
        (Pane.go_parent w p sh).2.cwd =
          (match fpathParent p.cwd with
           | some parent => parent
           | none => p.cwd))) := by
  constructor
  · intro par hz
    rw [go_parent_eq_ascend w p sh v par hv hz]
    obtain ⟨hc, hvfs, -⟩ := refresh_fields w
      { p with vfs := some { zip_path := v.zip_path, pfx := par } } RefreshMode.Reset sh
    exact ⟨by rw [hvfs], by rw [hc]⟩
  · intro hz
    rw [go_parent_eq_root w p sh v hv hz]
    obtain ⟨h1, h2, h3⟩ := go_parent_rest_spec w { p with vfs := none } sh
    exact ⟨h1, fun hp2 => h2 hp2, fun hp2 => h3 hp2⟩

/-- Witness for C2: ascending from prefix `"docs/"` inside `/a/x.zip`
returns to the root prefix with `cwd` untouched. -/
theorem c2_go_parent_archive_witness :
    (Pane.go_parent emptyDirWorld
        { samplePane ["a".data] [] with
            vfs := some { zip_path := ["a".data, "x.zip".data], pfx := "docs/".data } }
        true).2.vfs = some { zip_path := ["a".data, "x.zip".data], pfx := [] } ∧
    (Pane.go_parent emptyDirWorld
        { samplePane ["a".data] [] with
            vfs := some { zip_path := ["a".data, "x.zip".data], pfx := "docs/".data } }
        true).2.cwd = ["a".data] := by
  have h := (c2_go_parent_archive emptyDirWorld
    { samplePane ["a".data] [] with
        vfs := some { zip_path := ["a".data, "x.zip".data], pfx := "docs/".data } }
    { zip_path := ["a".data, "x.zip".data], pfx := "docs/".data } true rfl).1
    [] (by decide)
  exact h

/-- **C4 counterexample.** A failing refresh reached through
`enter_selected` leaves the pane with its old listing but an already
updated `cwd`: the retained entries are no longer consistent with the
pane's addressing state. -/
theorem c4_enter_error_moves_cwd :
    (Pane.enter_selected errWorld
        (samplePane ["a".data]
          [{ name := "b".data, path := ["a".data, "b".data], is_dir := true,
             size := 0, modified := none, is_system := false }]) true).1 =
      Except.error "io".data ∧
    (Pane.enter_selected errWorld
        (samplePane ["a".data]
          [{ name := "b".data, path := ["a".data, "b".data], is_dir := true,
             size := 0, modified := none, is_system := false }]) true).2.entries =
      (samplePane ["a".data]
        [{ name := "b".data, path := ["a".data, "b".data], is_dir := true,
           size := 0, modified := none, is_system := false }]).entries ∧
    (Pane.enter_selected errWorld
        (samplePane ["a".data]
          [{ name := "b".data, path := ["a".data, "b".data], is_dir := true,
             size := 0, modified := none, is_system := false }]) true).2.cwd ≠
      (samplePane ["a".data]
        [{ name := "b".data, path := ["a".data, "b".data], is_dir := true,
           size := 0, modified := none, is_system := false }]).cwd := by
  decide

/-- **C4 (amended).** A failing listing never touches `entries` or
`selected` and the error is returned to the caller: a direct `refresh`
leaves the pane entirely unchanged, and a refresh failing inside
`go_parent`/`enter_selected` propagates the error with the old entries and
selection retained — but in those two callers the addressing state (`cwd`
or vfs prefix) was already updated before the refresh, so the retained
listing can disagree with the pane's addressing state. -/
theorem c4_refresh_error_isolation (w : World) (sh : Bool) :
    (∀ (p : Pane) (mode : RefreshMode) (e : Str),
      (Pane.refresh w p mode sh).1 = Except.error e →
        (Pane.refresh w p mode sh).2 = p) ∧
    (∀ (p : Pane) (e : Str),
      (Pane.go_parent w p sh).1 = Except.error e →
        (Pane.go_parent w p sh).2.entries = p.entries ∧
        (Pane.go_parent w p sh).2.selected = p.selected) ∧
    (∀ (p : Pane) (e : Str),
      (Pane.enter_selected w p sh).1 = Except.error e →
        (Pane.enter_selected w p sh).2.entries = p.entries ∧
        (Pane.enter_selected w p sh).2.selected = p.selected) :=
  ⟨fun p mode e h => refresh_error_snd w p mode sh e h,
   fun p e h => go_parent_error w p sh e h,
   fun p e h => enter_selected_error w p sh e h⟩

/-- Witness for C4: a failing direct refresh returns the very same pane,
and the failing `enter_selected` of the counterexample keeps entries and
selection. -/
theorem c4_refresh_error_isolation_witness :
    (Pane.refresh errWorld pane5 RefreshMode.Keep true).2 = pane5 ∧
    (Pane.enter_selected errWorld
        (samplePane ["a".data]
          [{ name := "b".data, path := ["a".data, "b".data], is_dir := true,
             size := 0, modified := none, is_system := false }]) true).2.selected =
      (samplePane ["a".data]
        [{ name := "b".data, path := ["a".data, "b".data], is_dir := true,
           size := 0, modified := none, is_system := false }]).selected := by
  constructor
  · exact (c4_refresh_error_isolation errWorld true).1 pane5 RefreshMode.Keep
      "io".data (by decide)
  · exact ((c4_refresh_error_isolation errWorld true).2.2
      (samplePane ["a".data]
        [{ name := "b".data, path := ["a".data, "b".data], is_dir := true,
           size := 0, modified := none, is_system := false }])
      "io".data (by decide)).2

/-- **C3.** The selection-subset invariant: a successful refresh
establishes it unconditionally (stale paths are filtered out against the
new listing), `select_all`, `clear_selection` and `invert_selection`
establish it from scratch, and `toggle_select` preserves it (it only ever
inserts the highlighted entry's path, which is a current entry). -/
theorem c3_selection_subset (w : World) (sh : Bool) :
    (∀ (p : Pane) (mode : RefreshMode),
      (Pane.refresh w p mode sh).1 = Except.ok () →
        SelInv (Pane.refresh w p mode sh).2) ∧
    (∀ p : Pane, SelInv p → SelInv (Pane.toggle_select p)) ∧
    (∀ p : Pane, SelInv (Pane.select_all p)) ∧
    (∀ p : Pane, SelInv (Pane.clear_selection p)) ∧
    (∀ p : Pane, SelInv (Pane.invert_selection p)) := by
  refine ⟨?_, ?_, ?_, ?_, ?_⟩
  · intro p mode hok x hx
    obtain ⟨entries, hls, hent, hsel⟩ := refresh_ok_spec w p mode sh hok
    rw [hsel] at hx
    obtain ⟨hxs, hpred⟩ := Finset.mem_filter.mp hx
    obtain ⟨e, he, heq⟩ := List.any_eq_true.mp hpred
    refine ⟨e, ?_, beq_iff_eq.mp heq⟩
    rw [hent]
    exact he
  · intro p hinv x hx
    cases hse : p.selected_entry with
    | none =>
      have ht : Pane.toggle_select p = p := by
        unfold Pane.toggle_select
        rw [hse]
      rw [ht] at hx ⊢
      exact hinv x hx
    | some entry =>
      have hmem : entry ∈ p.entries := by
        unfold Pane.selected_entry at hse
        cases hs : p.state.selected with
        | none =>
          rw [hs] at hse
          exact Option.noConfusion hse
        | some idx =>
          rw [hs] at hse
          obtain ⟨hlt, hEq⟩ := List.getElem?_eq_some.mp hse
          exact hEq ▸ List.getElem_mem hlt
      by_cases hin : entry.path ∈ p.selected
      · have ht : Pane.toggle_select p =
            { p with selected := p.selected.erase entry.path } := by
          unfold Pane.toggle_select
          rw [hse]
          dsimp only
          rw [if_pos hin]
        rw [ht] at hx ⊢
        exact hinv x (Finset.mem_of_mem_erase hx)
      · have ht : Pane.toggle_select p =
            { p with selected := insert entry.path p.selected } := by
          unfold Pane.toggle_select
          rw [hse]
          dsimp only
          rw [if_neg hin]
        rw [ht] at hx ⊢
        rcases Finset.mem_insert.mp hx with hxe | hxs
        · exact ⟨entry, hmem, hxe.symm⟩
        · exact hinv x hxs
  · intro p x hx
    obtain ⟨e, he, heq⟩ := List.mem_map.mp (List.mem_toFinset.mp hx)
    exact ⟨e, he, heq⟩
  · intro p x hx
    exact absurd hx (Finset.not_mem_empty x)
  · intro p x hx
    obtain ⟨e, he, heq⟩ := List.mem_map.mp (List.mem_toFinset.mp hx)
    exact ⟨e, List.mem_of_mem_filter he, heq⟩

/-- Witness for C3: a successful refresh of an empty directory and a
toggle on a pane satisfying the invariant. -/
theorem c3_selection_subset_witness :
    SelInv (Pane.refresh emptyDirWorld pane5 RefreshMode.Reset true).2 ∧
    SelInv (Pane.toggle_select pane5) := by
  constructor
  · exact (c3_selection_subset emptyDirWorld true).1 pane5 RefreshMode.Reset (by decide)
  · refine (c3_selection_subset emptyDirWorld true).2.1 pane5 ?_
    intro x hx
    exact absurd hx (Finset.not_mem_empty x)

/-- A successful listing makes `refresh` succeed with exactly that
listing installed. -/
theorem refresh_of_listSource (w : World) (q : Pane) (mode : RefreshMode) (sh : Bool)
    (entries : List Entry) (hls : Pane.listSource w q sh = Except.ok entries) :
    (Pane.refresh w q mode sh).1 = Except.ok () ∧
    (Pane.refresh w q mode sh).2.entries = entries := by
  unfold Pane.refresh
  rw [hls]
  dsimp only
  refine ⟨?_, ?_⟩ <;>
    · split
      · rfl
      · split <;> rfl

/-- **C5.** End-to-end archive scenario: for an archive whose only stored
entry is `docs/readme.txt` (any stored size), the root listing is exactly
one directory entry `docs` of size 0 with no timestamp; entering it sets
the prefix to `"docs/"` and installs the listing of that prefix, which is
exactly one file entry `readme.txt` carrying the archive's stored size. -/
theorem c5_zip_scenario (w : World) (zp : FPath) (sz : Nat) (sh : Bool)
    (hz : w.zipEntries zp =
      Except.ok [{ name := "docs/readme.txt".data, is_dir := false, size := sz }]) :
    read_zip_entries w { zip_path := zp, pfx := [] } sh = Except.ok [dEntry] ∧
    read_zip_entries w { zip_path := zp, pfx := "docs/".data } sh =
      Except.ok [rEntry sz] ∧
    (∀ p : Pane, p.vfs = some { zip_path := zp, pfx := [] } →
      p.panelized = none →
      p.entries = [dEntry] → p.state.selected = some 0 →
      (Pane.enter_selected w p sh).1 = Except.ok true ∧
      (Pane.enter_selected w p sh).2.vfs =
        some { zip_path := zp, pfx := "docs/".data } ∧
      (Pane.enter_selected w p sh).2.entries = [rEntry sz]) := by
  have h1 : read_zip_entries w { zip_path := zp, pfx := [] } sh =
      Except.ok [dEntry] := by
    unfold read_zip_entries
    dsimp only
    rw [hz]
    cases sh <;> rfl
  have h2 : read_zip_entries w { zip_path := zp, pfx := "docs/".data } sh =
      Except.ok [rEntry sz] := by
    unfold read_zip_entries
    dsimp only
    rw [hz]
    cases sh <;> rfl
  refine ⟨h1, h2, ?_⟩
  intro p hv hpan hent hsel
  have hse : p.selected_entry = some dEntry := by
    unfold Pane.selected_entry
    rw [hsel]
    dsimp only
    rw [hent]
    rfl
  have hrt : Pane.enter_selected w p sh =
      Pane.refreshThen w
        { p with vfs := some { zip_path := zp, pfx := "docs/".data } } sh := by
    rw [enter_eq_vfs_dir w p sh dEntry { zip_path := zp, pfx := [] } hse rfl hv]
    rfl
  have hls : Pane.listSource w
      { p with vfs := some { zip_path := zp, pfx := "docs/".data } } sh =
      Except.ok [rEntry sz] := by
    unfold Pane.listSource
    dsimp only
    rw [hpan]
    exact h2
  obtain ⟨hr1, hr2⟩ := refresh_of_listSource w
    { p with vfs := some { zip_path := zp, pfx := "docs/".data } }
    RefreshMode.Reset sh [rEntry sz] hls
  have hft : Pane.refreshThen w
      { p with vfs := some { zip_path := zp, pfx := "docs/".data } } sh =
      (Except.ok true,
        (Pane.refresh w { p with vfs := some { zip_path := zp, pfx := "docs/".data } }
          RefreshMode.Reset sh).2) := by
    unfold Pane.refreshThen
    cases hrr : Pane.refresh w
        { p with vfs := some { zip_path := zp, pfx := "docs/".data } }
        RefreshMode.Reset sh with
    | mk fst snd =>
      cases fst with
      | error e =>
        have hr1' : (Except.error e : Except Str Unit) = Except.ok () := by
          rw [← hr1, hrr]
        exact Except.noConfusion hr1'
      | ok u => rfl
  obtain ⟨hcw, hvfs2, hpn2⟩ := refresh_fields w
    { p with vfs := some { zip_path := zp, pfx := "docs/".data } }
    RefreshMode.Reset sh
  refine ⟨?_, ?_, ?_⟩
  · rw [hrt, hft]
  · rw [hrt, hft]
    exact hvfs2
  · rw [hrt, hft]
    exact hr2

/-- Witness for C5: the scenario run inside the concrete world holding
`/x.zip` with `docs/readme.txt` of size 7. -/
theorem c5_zip_scenario_witness :
    read_zip_entries zipWorld { zip_path := ["x.zip".data], pfx := [] } true =
      Except.ok [dEntry] ∧
    read_zip_entries zipWorld { zip_path := ["x.zip".data], pfx := "docs/".data } true =
      Except.ok [rEntry 7] := by
  have h := c5_zip_scenario zipWorld ["x.zip".data] 7 true (by decide)
  exact ⟨h.1, h.2.1⟩

/-- **C10.** `selected_paths` gives the dialogs their operands: with an
empty multi-selection it is the single highlighted entry's path (or empty
when nothing is highlighted); with a non-empty multi-selection it is
exactly the selected paths (up to the subset invariant) in the order they
appear in `entries`, the highlighted entry playing no role; and
`begin_delete` (outside archives, with a non-empty operand list) installs
the delete dialog over exactly that list. -/
theorem c10_selected_paths :
    (∀ p : Pane, p.selected = ∅ →
      ((∃ e, p.selected_entry = some e ∧ selected_paths p = [e.path]) ∨
       (p.selected_entry = none ∧ selected_paths p = []))) ∧
    (∀ p : Pane, p.selected ≠ ∅ →
      ((∀ x ∈ selected_paths p, x ∈ p.selected) ∧
       (SelInv p → ∀ x ∈ p.selected, x ∈ selected_paths p) ∧
       (selected_paths p).Sublist (p.entries.map (fun e => e.path)))) ∧
    (∀ a : App, (App.active_pane a).vfs = none →
      selected_paths (App.active_pane a) ≠ [] →
        ∃ nm, (App.begin_delete a).modal =
          some (Modal.DeleteDialog (selected_paths (App.active_pane a)) nm false 1)) := by
  refine ⟨?_, ?_, ?_⟩
  · intro p hemp
    cases hse : p.selected_entry with
    | some e =>
      left
      refine ⟨e, rfl, ?_⟩
      unfold selected_paths
      rw [if_pos hemp, hse]
    | none =>
      right
      refine ⟨rfl, ?_⟩
      unfold selected_paths
      rw [if_pos hemp, hse]
  · intro p hne
    have hsp : selected_paths p =
        (p.entries.filter (fun e => decide (e.path ∈ p.selected))).map
          (fun e => e.path) := by
      unfold selected_paths
      rw [if_neg hne]
    refine ⟨?_, ?_, ?_⟩
    · intro x hx
      rw [hsp] at hx
      obtain ⟨e, he, heq⟩ := List.mem_map.mp hx
      have hef := List.mem_filter.mp he
      rw [← heq]
      exact of_decide_eq_true hef.2
    · intro hinvp x hxsel
      rw [hsp]
      obtain ⟨e, he, hpath⟩ := hinvp x hxsel
      refine List.mem_map.mpr ⟨e, List.mem_filter.mpr ⟨he, ?_⟩, hpath⟩
      rw [hpath]
      exact decide_eq_true hxsel
    · rw [hsp]
      exact List.Sublist.map _ (List.filter_sublist _)
  · intro a hvfs hne
    unfold App.begin_delete
    rw [if_neg (show ¬(App.active_pane a).vfs.isSome = true by simp [hvfs])]
    dsimp only
    rw [if_neg (show ¬(selected_paths (App.active_pane a)).isEmpty = true by
      simpa [List.isEmpty_iff] using hne)]
    exact ⟨_, rfl⟩

/-- Witness for C10: the multi-selected pane's `g` path is produced (and
only selected paths are, in entry order); a one-entry pane with empty
selection yields exactly one operand; `begin_delete` on the fixture
controller opens the delete dialog. -/
theorem c10_selected_paths_witness :
    (["g".data] : FPath) ∈ selected_paths selPane ∧
    (selected_paths selPane).Sublist (selPane.entries.map (fun e => e.path)) ∧
    (selected_paths (samplePane [] [sampleEntry "a".data])).length = 1 ∧
    (App.begin_delete app10).modal ≠ none := by
  have h2 := c10_selected_paths.2.1 selPane (by decide)
  refine ⟨h2.2.1 (by decide) ["g".data] (by decide), h2.2.2, ?_, ?_⟩
  · have h1 := c10_selected_paths.1 (samplePane [] [sampleEntry "a".data]) (by decide)
    rcases h1 with ⟨e, hse, hsp⟩ | ⟨hse, hsp⟩
    · rw [hsp]
      rfl
    · exfalso
      have hd : (samplePane [] [sampleEntry "a".data]).selected_entry =
          some (sampleEntry "a".data) := by decide
      rw [hse] at hd
      exact Option.noConfusion hd
  · obtain ⟨nm, hnm⟩ := c10_selected_paths.2.2 app10 (by decide) (by decide)
    rw [hnm]
    exact fun hc => Option.noConfusion hc

/-- **C1.** The two-step overwrite protocol: committing a copy/move (Enter
on the dialog's input field or primary button, or committing a
CopyTo/MoveTo prompt) while `find_conflicts` reports conflicts performs no
filesystem mutation in that step and instead installs a `Confirm` modal
carrying `PendingConfirm::Overwrite`; on that modal, `'y'`/Enter issues
exactly the overwriting copy/move (overwrite = true) and closes it,
`'n'`/Escape closes it with no mutation, and any other key leaves it open
with no mutation. -/
theorem c1_overwrite_flow (w : World) :
    (∀ (a : App) (st : CopyDialogState) (k : Nat),
      st.focus = CopyDialogFocus.Input ∨ st.focus = CopyDialogFocus.BtnCopy →
      find_conflicts w st.sources (pathOfString st.dest) = some k →
      handle_copy_move_dialog_key w a KeyCode.Enter (Modal.CopyDialog st) true =
        ({ a with modal := some (Modal.Confirm "Overwrite".data (overwriteMsg k)
            (PendingConfirm.Overwrite OverwriteKind.Copy st.sources
              (pathOfString st.dest))) }, []) ∧
      handle_copy_move_dialog_key w a KeyCode.Enter (Modal.MoveDialog st) false =
        ({ a with modal := some (Modal.Confirm "Overwrite".data (overwriteMsg k)
            (PendingConfirm.Overwrite OverwriteKind.Move st.sources
              (pathOfString st.dest))) }, [])) ∧
    (∀ (a : App) (sources : List FPath) (input : Str) (k : Nat),
      find_conflicts w sources (pathOfString input) = some k →
      App.execute_prompt w a (PendingPrompt.CopyTo sources) input =
        ({ a with modal := some (Modal.Confirm "Overwrite".data (overwriteMsg k)
            (PendingConfirm.Overwrite OverwriteKind.Copy sources
              (pathOfString input))) }, []) ∧
      App.execute_prompt w a (PendingPrompt.MoveTo sources) input =
        ({ a with modal := some (Modal.Confirm "Overwrite".data (overwriteMsg k)
            (PendingConfirm.Overwrite OverwriteKind.Move sources
              (pathOfString input))) }, [])) ∧
    (∀ (a : App) (t m : Str) (kind : OverwriteKind) (sources : List FPath)
        (dest : FPath),
      ((handle_confirm_key w a (KeyCode.Char 'y') t m
          (PendingConfirm.Overwrite kind sources dest)).2 =
            [overwriteOp kind sources dest] ∧
       (handle_confirm_key w a (KeyCode.Char 'y') t m
          (PendingConfirm.Overwrite kind sources dest)).1.modal = none) ∧
      ((handle_confirm_key w a KeyCode.Enter t m
          (PendingConfirm.Overwrite kind sources dest)).2 =
            [overwriteOp kind sources dest] ∧
       (handle_confirm_key w a KeyCode.Enter t m
          (PendingConfirm.Overwrite kind sources dest)).1.modal = none) ∧
      handle_confirm_key w a (KeyCode.Char 'n') t m
        (PendingConfirm.Overwrite kind sources dest) =
          ({ a with modal := none }, []) ∧
      handle_confirm_key w a KeyCode.Escape t m
        (PendingConfirm.Overwrite kind sources dest) =
          ({ a with modal := none }, []) ∧
      (∀ key : KeyCode, key ≠ KeyCode.Char 'y' → key ≠ KeyCode.Enter →
        key ≠ KeyCode.Char 'n' → key ≠ KeyCode.Escape →
        handle_confirm_key w a key t m (PendingConfirm.Overwrite kind sources dest) =
          ({ a with modal := some (Modal.Confirm t m
              (PendingConfirm.Overwrite kind sources dest)) }, []))) := by
  refine ⟨?_, ?_, ?_⟩
  · intro a st k hfocus hconf
    rcases hfocus with hf | hf <;>
      exact ⟨by simp [handle_copy_move_dialog_key, cmDialogKey, cmCommit, hf, hconf],
             by simp [handle_copy_move_dialog_key, cmDialogKey, cmCommit, hf, hconf]⟩
  · intro a sources input k hconf
    exact ⟨by simp [App.execute_prompt, hconf], by simp [App.execute_prompt, hconf]⟩
  · intro a t m kind sources dest
    refine ⟨⟨?_, ?_⟩, ⟨?_, ?_⟩, ?_, ?_, ?_⟩
    · cases kind with
      | Copy =>
        cases hres : w.copyRes sources dest true <;>
          simp [handle_confirm_key, App.execute_confirm, overwriteOp, hres]
      | Move =>
        cases hres : w.moveRes sources dest true <;>
          simp [handle_confirm_key, App.execute_confirm, overwriteOp, hres]
    · cases kind with
      | Copy =>
        cases hres : w.copyRes sources dest true <;>
          simp [handle_confirm_key, App.execute_confirm, hres]
      | Move =>
        cases hres : w.moveRes sources dest true <;>
          simp [handle_confirm_key, App.execute_confirm, hres]
    · cases kind with
      | Copy =>
        cases hres : w.copyRes sources dest true <;>
          simp [handle_confirm_key, App.execute_confirm, overwriteOp, hres]
      | Move =>
        cases hres : w.moveRes sources dest true <;>
          simp [handle_confirm_key, App.execute_confirm, overwriteOp, hres]
    · cases kind with
      | Copy =>
        cases hres : w.copyRes sources dest true <;>
          simp [handle_confirm_key, App.execute_confirm, hres]
      | Move =>
        cases hres : w.moveRes sources dest true <;>
          simp [handle_confirm_key, App.execute_confirm, hres]
    · rfl
    · rfl
    · intro key h1 h2 h3 h4
      unfold handle_confirm_key
      split <;>
        first
        | rfl
        | exact absurd rfl h1
        | exact absurd rfl h2
        | exact absurd rfl h3
        | exact absurd rfl h4

/-- Witness for C1: in the conflicting world, Enter on the copy dialog
installs the Overwrite confirm without copying; `'y'` on that confirm
issues the overwriting copy; Escape closes it silently. -/
theorem c1_overwrite_flow_witness :
    (handle_copy_move_dialog_key c1World app0 KeyCode.Enter
        (Modal.CopyDialog st0) true).1.modal =
      some (Modal.Confirm "Overwrite".data (overwriteMsg 1)
        (PendingConfirm.Overwrite OverwriteKind.Copy [["s".data]] ["d".data])) ∧
    (handle_copy_move_dialog_key c1World app0 KeyCode.Enter
        (Modal.CopyDialog st0) true).2 = [] ∧
    (handle_confirm_key c1World app0 (KeyCode.Char 'y') "t".data "m".data
        (PendingConfirm.Overwrite OverwriteKind.Copy [["s".data]] ["d".data])).2 =
      [FsOp.copy [["s".data]] ["d".data] true] ∧
    handle_confirm_key c1World app0 KeyCode.Escape "t".data "m".data
        (PendingConfirm.Overwrite OverwriteKind.Copy [["s".data]] ["d".data]) =
      ({ app0 with modal := none }, []) := by
  have ha := (c1_overwrite_flow c1World).1 app0 st0 1 (Or.inl rfl) (by decide)
  have hc := (c1_overwrite_flow c1World).2.2 app0 "t".data "m".data
    OverwriteKind.Copy [["s".data]] ["d".data]
  refine ⟨?_, ?_, ?_, ?_⟩
  · rw [ha.1]
    decide
  · rw [ha.1]
  · have hops := hc.1.1
    rw [hops]
    decide
  · exact hc.2.2.2.1

end Franken
